import Mathlib

/-!
Verification of the theme-token SDK core: stylesheet parsing (variable lookup,
reference resolution, block extraction, orchestration), schema validation and
format transformation, as a shallow embedding of the TypeScript source
(src/schema.ts and the transform module).  Machine text is modelled as Lean
strings (lists of unicode scalar values); JavaScript objects are modelled as
insertion-ordered association lists with unique keys.
-/

set_option maxHeartbeats 1000000
set_option maxRecDepth 100000

/-- JavaScript whitespace (the set matched by the regex class backslash-s and
removed by String.prototype.trim): space, tab, LF, VT, FF, CR, NBSP and the
unicode space separators, line/paragraph separators, NNBSP, MMSP, ideographic
space and BOM. -/
def isJsWs (c : Char) : Bool :=
  c = ' ' || c = '\t' || c = '\n' || c.toNat = 13 || c.toNat = 11 || c.toNat = 12 ||
  c.toNat = 0xa0 || c.toNat = 0x1680 || (0x2000 ≤ c.toNat && c.toNat ≤ 0x200a) ||
  c.toNat = 0x2028 || c.toNat = 0x2029 || c.toNat = 0x202f || c.toNat = 0x205f ||
  c.toNat = 0x3000 || c.toNat = 0xfeff

/-- String.prototype.trim: strip JavaScript whitespace from both ends. -/
def jsTrim (s : String) : String :=
  String.mk (((s.data.dropWhile isJsWs).reverse.dropWhile isJsWs).reverse)

/-- Character class [a-z0-9-] under the case-insensitive regex flag,
i.e. ASCII letters of either case, digits, and the hyphen. -/
def isNameChar (c : Char) : Bool :=
  (('a' ≤ c && c ≤ 'z') || ('A' ≤ c && c ≤ 'Z') || ('0' ≤ c && c ≤ '9') || c = '-')

/-- Character class [a-z-] under the case-insensitive flag (the property-name
class of the body-rule regex): ASCII letters of either case and the hyphen. -/
def isAlphaDash (c : Char) : Bool :=
  (('a' ≤ c && c ≤ 'z') || ('A' ≤ c && c ≤ 'Z') || c = '-')

/-- ASCII lowercasing, for case-insensitive literal matching of regex flags. -/
def asciiLower (c : Char) : Char :=
  if 'A' ≤ c && c ≤ 'Z' then Char.ofNat (c.toNat + 32) else c

/-- The capture of the regex tail (backslash-s)*([^;]+) applied to the region
of characters strictly before the next semicolon.  The greedy whitespace run
backtracks just enough to leave at least one character for the capture, so the
capture is the region with its whitespace prefix removed, except that an
all-whitespace region captures only its last character. -/
def captureOfRegion (region : List Char) : List Char :=
  let ws := region.takeWhile isJsWs
  if ws.length = region.length then region.drop (region.length - 1)
  else region.drop ws.length

/-- One attempt of the declaration regex --([a-z0-9-]+)(ws)*:(ws)*([^;]+); at
the current position: returns the two captures and the input remaining after
the semicolon, or none when the position does not start a match. -/
def tryDeclAt : List Char → Option ((String × String) × List Char)
  | '-' :: '-' :: rest =>
    let name := rest.takeWhile isNameChar
    if name.isEmpty then none else
    let r1 := (rest.drop name.length).dropWhile isJsWs
    match r1 with
    | ':' :: r2 =>
      let region := r2.takeWhile (fun c => c ≠ ';')
      if region.isEmpty then none else
      match r2.drop region.length with
      | ';' :: r3 => some ((String.mk name, String.mk (captureOfRegion region)), r3)
      | _ => none
    | _ => none
  | _ => none

/-- Left-to-right global scan (matchAll) with the declaration regex: take the
leftmost match, continue after its semicolon; advance one character where no
match starts.  Fuel is the input length, enough since every step consumes at
least one character. -/
def scanVarDeclsAux : Nat → List Char → List (String × String)
  | 0, _ => []
  | fuel + 1, s =>
    match tryDeclAt s with
    | some (d, rest) => d :: scanVarDeclsAux fuel rest
    | none =>
      match s with
      | [] => []
      | _ :: t => scanVarDeclsAux fuel t

/-- All matches of --([a-z0-9-]+)\s*:\s*([^;]+); over a text, in text order,
with untrimmed value captures. -/
def scanVarDecls (s : String) : List (String × String) :=
  scanVarDeclsAux s.data.length s.data

/-- First binding of a key in an insertion-ordered association list
(JavaScript object property read). -/
def psFind : List (String × String) → String → Option String
  | [], _ => none
  | (k, v) :: t, key => if k = key then some v else psFind t key

/-- Whether a key is bound (the JavaScript `in` operator). -/
def psHas (ps : List (String × String)) (key : String) : Bool :=
  (psFind ps key).isSome

/-- JavaScript object property assignment: overwrite the value in place if the
key exists (keeping its original position), otherwise append. -/
def psUpsert : List (String × String) → String → String → List (String × String)
  | [], key, v => [(key, v)]
  | (k, v0) :: t, key, v =>
    if k = key then (k, v) :: t else (k, v0) :: psUpsert t key v

/-- buildVarLookup from src/schema.ts: scan the full stylesheet text for
variable declarations and record each name's first occurrence with its trimmed
raw value (first occurrence wins). -/
def buildVarLookup (fullCss : String) : List (String × String) :=
  (scanVarDecls fullCss).foldl
    (fun lookup d => if psHas lookup d.1 then lookup else lookup ++ [(d.1, jsTrim d.2)])
    []

/-- The resolver regex of resolveVar, anchored and case-insensitive:
var(--([a-z0-9-]+)) with nothing around it.  Returns the captured name
(original case) when the whole string is a single bare reference. -/
def varMatch (v : String) : Option String :=
  match v.data with
  | c0 :: c1 :: c2 :: '(' :: '-' :: '-' :: rest =>
    if asciiLower c0 = 'v' && asciiLower c1 = 'a' && asciiLower c2 = 'r' then
      let nm := rest.takeWhile isNameChar
      if nm.isEmpty then none
      else if rest.drop nm.length = [')'] then some (String.mk nm)
      else none
    else none
  | _ => none

/-- resolveVar from src/schema.ts, with an explicit recursion-depth fuel.
Each unfolding is the source body: a non-reference value is returned
unchanged; the built-in names color-white and color-black map to fixed
constants; otherwise the name is looked up, a found truthy value is resolved
recursively, and a missing (or falsy, i.e. empty) value returns the input
unchanged.  The fuel parameter is the recursion-depth bound that the
specification (section 4.3) requires an implementation to impose — the source
recursion carries no counter — with exhaustion returning the current value
unchanged (still an unresolved reference, surfaced later by the
orchestrator). -/
def resolveVarF : Nat → String → List (String × String) → String
  | 0, v, _ => v
  | fuel + 1, v, lookup =>
    match varMatch v with
    | none => v
    | some refName =>
      if refName = "color-white" then "oklch(1 0 0)"
      else if refName = "color-black" then "oklch(0 0 0)"
      else
        match psFind lookup refName with
        | some resolved => if resolved = "" then v else resolveVarF fuel resolved lookup
        | none => v

/-- The resolver with the specification's example depth bound of 32. -/
def resolveVar (v : String) (lookup : List (String × String)) : String :=
  resolveVarF 32 v lookup

/-- The five derived tracking names skipped by parseCssBlock
(regex tracking-(tighter|tight|wide|wider|widest), case-sensitive). -/
def isTrackingDerived (name : String) : Bool :=
  name = "tracking-tighter" || name = "tracking-tight" || name = "tracking-wide" ||
  name = "tracking-wider" || name = "tracking-widest"

/-- String.prototype.startsWith: prefix test. -/
def strStarts (s pre : String) : Bool :=
  pre.data.isPrefixOf s.data

/-- parseCssBlock from src/schema.ts: scan a block body for declarations,
drop the derived color- and radius- prefixed and tracking-scale names, remap
shadow-x, shadow-y and tracking-normal to the internal names, and store each
remaining value resolved through the lookup table. -/
def parseCssBlock (css : String) (varLookup : List (String × String)) :
    List (String × String) :=
  (scanVarDecls css).foldl
    (fun props d =>
      let name := d.1
      let value := d.2
      if strStarts name "color-" || strStarts name "radius-" then props
      else if isTrackingDerived name then props
      else
        let mapped :=
          if name = "shadow-x" then "shadow-offset-x"
          else if name = "shadow-y" then "shadow-offset-y"
          else if name = "tracking-normal" then "letter-spacing"
          else name
        psUpsert props mapped (resolveVar (jsTrim value) varLookup))
    []

/-- One attempt of a selector-block regex sel(ws)*{([^}]+)} at the current
position: the selector literal, optional whitespace, an opening brace, a
non-empty brace-free body, a closing brace.  Returns the body capture. -/
def tryBlockAt (sel : List Char) (s : List Char) : Option (List Char) :=
  if sel.isPrefixOf s then
    let r1 := (s.drop sel.length).dropWhile isJsWs
    match r1 with
    | '\x7b' :: r2 =>
      let body := r2.takeWhile (fun c => c ≠ '\x7d')
      if body.isEmpty then none
      else
        match r2.drop body.length with
        | '\x7d' :: _ => some body
        | _ => none
    | _ => none
  else none

/-- Leftmost match of a selector-block regex over the text. -/
def findBlockAux : Nat → List Char → List Char → Option (List Char)
  | 0, _, _ => none
  | fuel + 1, sel, s =>
    match tryBlockAt sel s with
    | some b => some b
    | none =>
      match s with
      | [] => none
      | _ :: t => findBlockAux fuel sel t

/-- The capture of the light-mode block regex :root(ws)*{([^}]+)}. -/
def rootBlockOf (css : String) : Option String :=
  (findBlockAux (css.data.length + 1) ":root".data css.data).map String.mk

/-- The capture of the dark-mode block regex \.dark(ws)*{([^}]+)}. -/
def darkBlockOf (css : String) : Option String :=
  (findBlockAux (css.data.length + 1) ".dark".data css.data).map String.mk

/-- One attempt of the body-rule property regex ([a-z-]+)(ws)*:(ws)*([^;]+);
at the current position. -/
def tryPropDeclAt : List Char → Option ((String × String) × List Char)
  | [] => none
  | s =>
    let name := s.takeWhile isAlphaDash
    if name.isEmpty then none else
    let r1 := (s.drop name.length).dropWhile isJsWs
    match r1 with
    | ':' :: r2 =>
      let region := r2.takeWhile (fun c => c ≠ ';')
      if region.isEmpty then none else
      match r2.drop region.length with
      | ';' :: r3 => some ((String.mk name, String.mk (captureOfRegion region)), r3)
      | _ => none
    | _ => none

/-- Global scan with the body-rule property regex. -/
def scanPropDeclsAux : Nat → List Char → List (String × String)
  | 0, _ => []
  | fuel + 1, s =>
    match tryPropDeclAt s with
    | some (d, rest) => d :: scanPropDeclsAux fuel rest
    | none =>
      match s with
      | [] => []
      | _ :: t => scanPropDeclsAux fuel t

/-- The body-property map collected by parseLayerBase: each regex match is
assigned into the object with both captures trimmed. -/
def scanBodyProps (content : List Char) : List (String × String) :=
  (scanPropDeclsAux content.length content).foldl
    (fun props d => psUpsert props (jsTrim d.1) (jsTrim d.2)) []

/-- One attempt of the lazy layer regex
at-layer(ws)+base(ws)*{ ([sS]*?body[sS]*?) } at the current position: after
the opening brace, the lazy quantifiers select the first occurrence of the
literal body and then the first closing brace after it; the capture runs from
the brace to just before that closing brace. -/
def tryLayerAt (s : List Char) : Option (List Char) :=
  if "@layer".data.isPrefixOf s then
    let r1 := s.drop 6
    let ws := r1.takeWhile isJsWs
    if ws.isEmpty then none else
    let r2 := r1.drop ws.length
    if "base".data.isPrefixOf r2 then
      let r3 := (r2.drop 4).dropWhile isJsWs
      match r3 with
      | '\x7b' :: r4 =>
        match splitAtBody r4 with
        | some (before, after) =>
          let mid := after.takeWhile (fun c => c ≠ '\x7d')
          match after.drop mid.length with
          | '\x7d' :: _ => some (before ++ "body".data ++ mid)
          | _ => none
        | none => none
      | _ => none
    else none
  else none
where
  /-- Split around the first occurrence of the literal body. -/
  splitAtBody : List Char → Option (List Char × List Char)
    | [] => none
    | c :: t =>
      if "body".data.isPrefixOf (c :: t) then some ([], (c :: t).drop 4)
      else (splitAtBody t).map (fun p => (c :: p.1, p.2))

/-- Leftmost match of the lazy layer regex over the whole text. -/
def findLayerAux : Nat → List Char → Option (List Char)
  | 0, _ => none
  | fuel + 1, s =>
    match tryLayerAt s with
    | some b => some b
    | none =>
      match s with
      | [] => none
      | _ :: t => findLayerAux fuel t

/-- Leftmost match of body(ws)*{([^}]+)} at line starts only (the
(start-or-newline)body alternative of the root-level body regex): the boolean
records whether the current position is the string start or follows a
newline. -/
def rootBodyAux : Nat → Bool → List Char → Option (List Char)
  | 0, _, _ => none
  | fuel + 1, atStart, s =>
    match (if atStart then tryBlockAt "body".data s else none) with
    | some b => some b
    | none =>
      match s with
      | [] => none
      | c :: t => rootBodyAux fuel (c = '\n') t

/-- parseLayerBase from src/schema.ts: prefer the at-layer-wrapped capture
(running the inner body-block regex on it), else fall back to a root-level
body block; collect the body properties; empty results become none. -/
def parseLayerBase (css : String) : Option (List (String × List (String × String))) :=
  let bodyContent : Option (List Char) :=
    match findLayerAux (css.data.length + 1) css.data with
    | some capture => findBlockAux (capture.length + 1) "body".data capture
    | none => rootBodyAux (css.data.length + 1) true css.data
  match bodyContent with
  | none => none
  | some bc =>
    let bodyProps := scanBodyProps bc
    if bodyProps.isEmpty then none else some [("body", bodyProps)]

/-- The theme styles record: the two required mode property sets, each a
JavaScript object modelled as an insertion-ordered association list. -/
structure ThemeStyles where
  light : List (String × String)
  dark : List (String × String)
deriving DecidableEq, Repr

/-- The optional css rules record ({"at-layer base"?: record of records}). -/
structure CssRules where
  layerBase : Option (List (String × List (String × String)))
deriving DecidableEq, Repr

/-- A bundle asset (vout, type, slot). -/
structure BundleAsset where
  vout : Int
  type : String
  slot : String
deriving DecidableEq, Repr

/-- Bundle metadata (version is the literal 1 in the schema). -/
structure ThemeBundle where
  version : Int
  assets : List BundleAsset
deriving DecidableEq, Repr

/-- The ThemeToken document: schema URL, name, optional author, optional
bundle, the two style modes, optional css rules.  Field order matches the
declaration order of themeTokenSchema. -/
structure ThemeToken where
  schema : String
  name : String
  author : Option String
  bundle : Option ThemeBundle
  styles : ThemeStyles
  css : Option CssRules
deriving DecidableEq, Repr

/-- THEME_TOKEN_SCHEMA_URL. -/
def themeTokenSchemaUrl : String := "https://themetoken.dev/v1/schema.json"

/-- Parse metadata (property counts and block-presence flags). -/
structure ParseMetadata where
  lightPropertyCount : Nat
  darkPropertyCount : Nat
  totalPropertyCount : Nat
  hasLightMode : Bool
  hasDarkMode : Bool
deriving DecidableEq, Repr

/-- The ParseResult discriminated union. -/
inductive ParseResult where
  | valid (theme : ThemeToken) (metadata : ParseMetadata)
  | invalid (error : String)
deriving DecidableEq, Repr

/-- Number of distinct strings in a list (the size of the Set built from the
concatenated key lists). -/
def distinctCount (l : List String) : Nat :=
  (l.foldl (fun acc k => if acc.contains k then acc else acc ++ [k]) []).length

/-- The four minimally required properties checked by parseCss, in order. -/
def requiredProps : List String := ["background", "foreground", "primary", "radius"]

/-- The first required property missing from a property set, if any. -/
def firstMissingProp (ps : List (String × String)) : Option String :=
  requiredProps.find? (fun p => !psHas ps p)

/-- The unresolved-reference names collected by parseCss: light-mode keys
whose value starts with var(, then dark-mode keys likewise tagged (dark). -/
def unresolvedRefs (light dark : List (String × String)) : List String :=
  (light.filter (fun p => strStarts p.2 "var(")).map (fun p => "--" ++ p.1) ++
  (dark.filter (fun p => strStarts p.2 "var(")).map (fun p => "--" ++ p.1 ++ " (dark)")

/-- Decimal digit characters of a natural number, most significant first,
with explicit fuel (any fuel with n below ten to the fuel is exact). -/
def natDigitsF : Nat → Nat → List Char
  | 0, _ => []
  | fuel + 1, n =>
    if n < 10 then [Char.ofNat (48 + n)]
    else natDigitsF fuel (n / 10) ++ [Char.ofNat (48 + n % 10)]

/-- Decimal digit characters of a natural number, most significant first. -/
def natDigits (n : Nat) : List Char := natDigitsF (n + 1) n

/-- Decimal rendering of a natural number. -/
def natToStr (n : Nat) : String := String.mk (natDigits n)

/-- JavaScript Array.prototype.join with an arbitrary separator. -/
def joinSepStr (sep : String) : List String → String
  | [] => ""
  | [a] => a
  | a :: b :: t => a ++ sep ++ joinSepStr sep (b :: t)

/-- The unresolved-references failure message of parseCss: up to three
offending names, a remainder count when more than three, and the fixed
instruction. -/
def unresolvedMsg (u : List String) : String :=
  "Unresolved var() references: " ++ joinSepStr ", " (u.take 3) ++
  (if u.length > 3 then " and " ++ natToStr (u.length - 3) ++ " more" else "") ++
  ". Please paste CSS with resolved values."

/-- parseCss from src/schema.ts: locate the :root and .dark blocks, build the
whole-text variable lookup, parse each block, check the four required
properties, reject remaining var( values, attach layer-base rules, and
assemble the theme with metadata.  The catch clause of the source is for
unexpected runtime faults only and has no counterpart in this total model. -/
def parseCss (css : String) (name : String := "Custom Theme") : ParseResult :=
  let rootMatch := rootBlockOf css
  let darkMatch := darkBlockOf css
  let hasLightMode := rootMatch.isSome
  let hasDarkMode := darkMatch.isSome
  match rootMatch with
  | none => .invalid "Missing :root \x7b \x7d block for light mode"
  | some rootBody =>
    let varLookup := buildVarLookup css
    let lightStyles := parseCssBlock rootBody varLookup
    let darkStyles :=
      match darkMatch with
      | some darkBody => parseCssBlock darkBody varLookup
      | none => lightStyles
    match firstMissingProp lightStyles with
    | some p => .invalid ("Missing required property: --" ++ p)
    | none =>
      let unresolved := unresolvedRefs lightStyles darkStyles
      if unresolved.isEmpty then
        let cssRules := parseLayerBase css
        let theme : ThemeToken :=
          { schema := themeTokenSchemaUrl
            name := name
            author := none
            bundle := none
            styles := { light := lightStyles, dark := darkStyles }
            css := cssRules.map (fun lb => { layerBase := some lb }) }
        let metadata : ParseMetadata :=
          { lightPropertyCount := lightStyles.length
            darkPropertyCount := darkStyles.length
            totalPropertyCount :=
              distinctCount (lightStyles.map (·.1) ++ darkStyles.map (·.1))
            hasLightMode := hasLightMode
            hasDarkMode := hasDarkMode }
        .valid theme metadata
      else .invalid (unresolvedMsg unresolved)

/-- The three internal-only property names that never appear as declaration
names in serialized stylesheet text. -/
def internalNames : List String := ["letter-spacing", "shadow-offset-x", "shadow-offset-y"]

/-- The internal-to-external declaration-name remapping of toCss. -/
def cssKeyOut (key : String) : String :=
  if key = "letter-spacing" then "tracking-normal"
  else if key = "shadow-offset-x" then "shadow-x"
  else if key = "shadow-offset-y" then "shadow-y"
  else key

/-- One emitted declaration line of toCss. -/
def declLine (p : String × String) : String :=
  "  --" ++ cssKeyOut p.1 ++ ": " ++ p.2 ++ ";"

/-- The trailing at-layer-base lines emitted by toCss when css rules are
present (a blank line, the header, each selector with its properties, the
closing brace). -/
def layerLines : Option CssRules → List String
  | none => []
  | some c =>
    match c.layerBase with
    | none => []
    | some rules =>
      ["", "@layer base \x7b"] ++
      (rules.map (fun st =>
        ("  " ++ st.1 ++ " \x7b") ::
        (st.2.map (fun pv => "    " ++ pv.1 ++ ": " ++ pv.2 ++ ";") ++ ["  \x7d"]))).flatten ++
      ["\x7d"]

/-- JavaScript Array.prototype.join with a newline separator. -/
def joinNl : List String → String
  | [] => ""
  | [a] => a
  | a :: b :: t => a ++ "\n" ++ joinNl (b :: t)

/-- toCss from the transform module: push the :root block lines, a blank
line, the .dark block lines, then the at-layer-base lines, and join with
newlines.  Values are always present in this model (the undefined guard of
the source never fires on string-valued property sets). -/
def toCss (theme : ThemeToken) : String :=
  joinNl ([":root \x7b"] ++ theme.styles.light.map declLine ++
    ["\x7d", "", ".dark \x7b"] ++ theme.styles.dark.map declLine ++ ["\x7d"] ++
    layerLines theme.css)

/-- Concatenation of a list of strings. -/
def strConcat : List String → String
  | [] => ""
  | a :: t => a ++ strConcat t

/-- Specification-side rendering of one mode block body: every declaration on
its own line, in the iteration (insertion) order of the property mapping. -/
def declBlock (ps : List (String × String)) : String :=
  strConcat (ps.map (fun p => declLine p ++ "\n"))

/-- Specification-side rendering of the trailing at-layer-base text. -/
def layerSuffix (c : Option CssRules) : String :=
  strConcat ((layerLines c).map (fun l => "\n" ++ l))

/-- Substring occurrence (JavaScript String.prototype.includes). -/
def strContainsSub (s pat : String) : Bool :=
  (List.range (s.data.length + 1)).any (fun i => pat.data.isPrefixOf (s.data.drop i))

/-- The unbounded recursive resolution of the source resolveVar, as a
relation: ResolveRel lookup v out holds exactly when the source recursion,
run without any depth bound, terminates on v with result out.  Each
constructor is one source branch. -/
inductive ResolveRel (lookup : List (String × String)) : String → String → Prop where
  | noRef (v : String) : varMatch v = none → ResolveRel lookup v v
  | white (v : String) : varMatch v = some "color-white" → ResolveRel lookup v "oklch(1 0 0)"
  | black (v : String) : varMatch v = some "color-black" → ResolveRel lookup v "oklch(0 0 0)"
  | notFound (v n : String) : varMatch v = some n → n ≠ "color-white" →
      n ≠ "color-black" → psFind lookup n = none → ResolveRel lookup v v
  | falsy (v n : String) : varMatch v = some n → n ≠ "color-white" →
      n ≠ "color-black" → psFind lookup n = some "" → ResolveRel lookup v v
  | step (v n r out : String) : varMatch v = some n → n ≠ "color-white" →
      n ≠ "color-black" → psFind lookup n = some r → r ≠ "" →
      ResolveRel lookup r out → ResolveRel lookup v out

mutual
/-- A JSON value as produced by JSON.parse and consumed by JSON.stringify.
Strings are unicode scalar sequences; numbers are integers, which covers every
number this SDK serializes (bundle version and vout indices). -/
inductive JsonValue where
  | null
  | bool (b : Bool)
  | num (n : Int)
  | str (s : String)
  | arr (elems : JsonElems)
  | obj (members : JsonMembers)

/-- The element list of a JSON array. -/
inductive JsonElems where
  | nil
  | cons (head : JsonValue) (tail : JsonElems)

/-- The ordered member list of a JSON object. -/
inductive JsonMembers where
  | nil
  | cons (key : String) (val : JsonValue) (tail : JsonMembers)
end

/-- Build a member list from an association list. -/
def msOfList : List (String × JsonValue) → JsonMembers
  | [] => .nil
  | (k, v) :: t => .cons k v (msOfList t)

/-- Build an element list from a list. -/
def esOfList : List JsonValue → JsonElems
  | [] => .nil
  | v :: t => .cons v (esOfList t)

/-- Member list back to an association list. -/
def memsList : JsonMembers → List (String × JsonValue)
  | .nil => []
  | .cons k v t => (k, v) :: memsList t

/-- Object property read: first binding of the key. -/
def jFind : JsonMembers → String → Option JsonValue
  | .nil, _ => none
  | .cons k v t, key => if k = key then some v else jFind t key

/-- Whether a key is bound in a member list. -/
def mHasKey : JsonMembers → String → Bool
  | .nil, _ => false
  | .cons k _ t, key => k = key || mHasKey t key

/-- JavaScript object property assignment: overwrite in place or append. -/
def membersUpsert : JsonMembers → String → JsonValue → JsonMembers
  | .nil, key, v => .cons key v .nil
  | .cons k v0 t, key, v =>
    if k = key then .cons k v t else .cons k v0 (membersUpsert t key v)

/-- Assign a raw member list into an accumulating object left to right, the
way JSON.parse builds objects (duplicate keys keep the first position with the
last value). -/
def membersAssign : JsonMembers → JsonMembers → JsonMembers
  | acc, .nil => acc
  | acc, .cons k v t => membersAssign (membersUpsert acc k v) t

/-- No duplicate keys in a member list. -/
def mKeysNodup : JsonMembers → Bool
  | .nil => true
  | .cons k _ t => !(mHasKey t k) && mKeysNodup t

mutual
/-- Realizable as a JavaScript value: every object has unique keys. -/
def wfV : JsonValue → Bool
  | .null => true
  | .bool _ => true
  | .num _ => true
  | .str _ => true
  | .arr es => wfE es
  | .obj ms => mKeysNodup ms && wfM ms

/-- All array elements realizable. -/
def wfE : JsonElems → Bool
  | .nil => true
  | .cons v t => wfV v && wfE t

/-- All member values realizable. -/
def wfM : JsonMembers → Bool
  | .nil => true
  | .cons _ v t => wfV v && wfM t
end

/-- Lowercase hexadecimal digit, as emitted by the stringify escape. -/
def quoteHexDigit (n : Nat) : Char :=
  if n < 10 then Char.ofNat (48 + n) else Char.ofNat (87 + n)

/-- JSON.stringify escaping of one character: the named short escapes, a
u-escape for the other control characters, everything else literal. -/
def escChar (c : Char) : List Char :=
  if c = '"' then ['\\', '"']
  else if c = '\\' then ['\\', '\\']
  else if c.toNat = 8 then ['\\', 'b']
  else if c.toNat = 12 then ['\\', 'f']
  else if c = '\n' then ['\\', 'n']
  else if c.toNat = 13 then ['\\', 'r']
  else if c = '\t' then ['\\', 't']
  else if c.toNat < 32 then
    ['\\', 'u', '0', '0', quoteHexDigit (c.toNat / 16), quoteHexDigit (c.toNat % 16)]
  else [c]

/-- JSON.stringify quoting of a string. -/
def quoteJ (s : String) : List Char :=
  '"' :: ((s.data.map escChar).flatten ++ ['"'])

/-- Decimal rendering of an integer. -/
def intChars (n : Int) : List Char :=
  if n < 0 then '-' :: natDigits n.natAbs else natDigits n.toNat

/-- The two-space gap of pretty stringify (JSON.stringify(v, null, 2)). -/
def jGap : List Char := [' ', ' ']

mutual
/-- JSON.stringify serialization at an indentation, compact when the pretty
flag is false (gap 0) and two-space indented when it is true, following the
ECMA-262 SerializeJSON algorithms. -/
def renderV (pretty : Bool) (ind : List Char) : JsonValue → List Char
  | .null => "null".data
  | .bool true => "true".data
  | .bool false => "false".data
  | .num n => intChars n
  | .str s => quoteJ s
  | .arr .nil => "[]".data
  | .arr (.cons v t) =>
    '[' :: ((if pretty then '\n' :: (ind ++ jGap) else []) ++ renderE pretty ind v t)
  | .obj .nil => ['\x7b', '\x7d']
  | .obj (.cons k v t) =>
    '\x7b' :: ((if pretty then '\n' :: (ind ++ jGap) else []) ++ renderM pretty ind k v t)
termination_by v => sizeOf v
decreasing_by all_goals (simp_wf; omega)

/-- Array elements from the first onward, including the closing bracket. -/
def renderE (pretty : Bool) (ind : List Char) : JsonValue → JsonElems → List Char
  | v, .nil =>
    renderV pretty (ind ++ jGap) v ++ ((if pretty then '\n' :: ind else []) ++ [']'])
  | v, .cons v2 t =>
    renderV pretty (ind ++ jGap) v ++
      ((if pretty then [',', '\n'] ++ (ind ++ jGap) else [',']) ++ renderE pretty ind v2 t)
termination_by v t => sizeOf v + sizeOf t + 1
decreasing_by all_goals (simp_wf; omega)

/-- Object members from the first onward, including the closing brace. -/
def renderM (pretty : Bool) (ind : List Char) : String → JsonValue → JsonMembers → List Char
  | k, v, .nil =>
    quoteJ k ++ ((if pretty then [':', ' '] else [':']) ++ renderV pretty (ind ++ jGap) v ++
      ((if pretty then '\n' :: ind else []) ++ ['\x7d']))
  | k, v, .cons k2 v2 t =>
    quoteJ k ++ ((if pretty then [':', ' '] else [':']) ++ renderV pretty (ind ++ jGap) v ++
      ((if pretty then [',', '\n'] ++ (ind ++ jGap) else [',']) ++ renderM pretty ind k2 v2 t))
termination_by _k v t => sizeOf v + sizeOf t + 1
decreasing_by all_goals (simp_wf; omega)
end

/-- JSON.stringify with gap 2 (pretty) or 0 (compact). -/
def jsonStringify (v : JsonValue) (pretty : Bool) : String :=
  String.mk (renderV pretty [] v)

/-- JSON whitespace accepted between tokens by JSON.parse. -/
def isJsonWs (c : Char) : Bool :=
  c = ' ' || c = '\t' || c = '\n' || c.toNat = 13

/-- Skip JSON whitespace. -/
def skipWs : List Char → List Char
  | [] => []
  | c :: r => if isJsonWs c then skipWs r else c :: r

/-- Value of one hexadecimal digit character, either case. -/
def hexVal (c : Char) : Option Nat :=
  if '0' ≤ c && c ≤ '9' then some (c.toNat - 48)
  else if 'a' ≤ c && c ≤ 'f' then some (c.toNat - 87)
  else if 'A' ≤ c && c ≤ 'F' then some (c.toNat - 55)
  else none

/-- Value of a four-digit hexadecimal escape. -/
def hex4 (a b c d : Char) : Option Nat :=
  match hexVal a, hexVal b, hexVal c, hexVal d with
  | some x, some y, some z, some w => some (((x * 16 + y) * 16 + z) * 16 + w)
  | _, _, _, _ => none

mutual
/-- JSON string-body parsing after the opening quote, returning the decoded
characters and the input after the closing quote.  Raw control characters are
rejected and escapes are decoded.  A u-escape in the surrogate range becomes
U+FFFD (the model's strings are unicode scalar sequences; stringify only emits
u-escapes for control characters, so no claim exercises surrogate escapes). -/
def parseStrBody : List Char → Option (List Char × List Char)
  | [] => none
  | c :: r =>
    if c = '"' then some ([], r)
    else if c = '\\' then parseEsc r
    else if c.toNat < 32 then none
    else (parseStrBody r).map (fun p => (c :: p.1, p.2))

/-- Decode one escape after the backslash. -/
def parseEsc : List Char → Option (List Char × List Char)
  | [] => none
  | e :: r =>
    if e = '"' then (parseStrBody r).map (fun p => ('"' :: p.1, p.2))
    else if e = '\\' then (parseStrBody r).map (fun p => ('\\' :: p.1, p.2))
    else if e = '/' then (parseStrBody r).map (fun p => ('/' :: p.1, p.2))
    else if e = 'b' then (parseStrBody r).map (fun p => (Char.ofNat 8 :: p.1, p.2))
    else if e = 'f' then (parseStrBody r).map (fun p => (Char.ofNat 12 :: p.1, p.2))
    else if e = 'n' then (parseStrBody r).map (fun p => ('\n' :: p.1, p.2))
    else if e = 'r' then (parseStrBody r).map (fun p => (Char.ofNat 13 :: p.1, p.2))
    else if e = 't' then (parseStrBody r).map (fun p => ('\t' :: p.1, p.2))
    else if e = 'u' then
      (match r with
       | a :: b :: c :: d :: r2 =>
         (match hex4 a b c d with
          | some n =>
            if 0xd800 ≤ n && n ≤ 0xdfff then
              (parseStrBody r2).map (fun p => (Char.ofNat 0xfffd :: p.1, p.2))
            else (parseStrBody r2).map (fun p => (Char.ofNat n :: p.1, p.2))
          | none => none)
       | _ => none)
    else none
end

/-- Decimal digit character (0-9). -/
def isDigitCh (c : Char) : Bool :=
  48 ≤ c.toNat && c.toNat ≤ 57

/-- Greedy decimal digit run, accumulating the value. -/
def parseDigits : List Char → Nat → Nat × List Char
  | [], acc => (acc, [])
  | c :: r, acc =>
    if isDigitCh c then parseDigits r (acc * 10 + (c.toNat - 48)) else (acc, c :: r)

mutual
/-- Recursive-descent JSON value parser with fuel, modelling JSON.parse.
Fractional and exponent number forms are outside the integer number model and
fail (this SDK never serializes them). -/
def parseValue : Nat → List Char → Option (JsonValue × List Char)
  | 0, _ => none
  | fuel + 1, s =>
    match skipWs s with
    | [] => none
    | c :: r =>
      if c = 'n' then
        (match r with
         | 'u' :: 'l' :: 'l' :: r2 => some (.null, r2)
         | _ => none)
      else if c = 't' then
        (match r with
         | 'r' :: 'u' :: 'e' :: r2 => some (.bool true, r2)
         | _ => none)
      else if c = 'f' then
        (match r with
         | 'a' :: 'l' :: 's' :: 'e' :: r2 => some (.bool false, r2)
         | _ => none)
      else if c = '"' then
        (match parseStrBody r with
         | some (cs, r2) => some (.str (String.mk cs), r2)
         | none => none)
      else if c = '\x7b' then
        (match skipWs r with
         | [] => none
         | c2 :: r2 =>
           if c2 = '\x7d' then some (.obj .nil, r2)
           else
             match parseMembers fuel (c2 :: r2) with
             | some (ms, r3) => some (.obj (membersAssign .nil ms), r3)
             | none => none)
      else if c = '[' then
        (match skipWs r with
         | [] => none
         | c2 :: r2 =>
           if c2 = ']' then some (.arr .nil, r2)
           else
             match parseElems fuel (c2 :: r2) with
             | some (es, r3) => some (.arr es, r3)
             | none => none)
      else if c = '-' then
        (match r with
         | c2 :: r2 =>
           if isDigitCh c2 then
             (let p := parseDigits (c2 :: r2) 0
              some (.num (-(p.1 : Int)), p.2))
           else none
         | [] => none)
      else if isDigitCh c then
        (let p := parseDigits (c :: r) 0
         some (.num (p.1 : Int), p.2))
      else none

/-- Array elements from the first onward, consuming the closing bracket. -/
def parseElems : Nat → List Char → Option (JsonElems × List Char)
  | 0, _ => none
  | fuel + 1, s =>
    match parseValue fuel s with
    | some (v, r) =>
      (match skipWs r with
       | ',' :: r2 =>
         (match parseElems fuel (skipWs r2) with
          | some (es, r3) => some (.cons v es, r3)
          | none => none)
       | ']' :: r2 => some (.cons v .nil, r2)
       | _ => none)
    | none => none

/-- Object members from the first onward (raw, before assignment into the
object), consuming the closing brace. -/
def parseMembers : Nat → List Char → Option (JsonMembers × List Char)
  | 0, _ => none
  | fuel + 1, s =>
    match s with
    | '"' :: r =>
      (match parseStrBody r with
       | some (kcs, r2) =>
         (match skipWs r2 with
          | ':' :: r3 =>
            (match parseValue fuel r3 with
             | some (v, r4) =>
               (match skipWs r4 with
                | ',' :: r5 =>
                  (match parseMembers fuel (skipWs r5) with
                   | some (ms, r6) => some (.cons (String.mk kcs) v ms, r6)
                   | none => none)
                | '\x7d' :: r5 => some (.cons (String.mk kcs) v .nil, r5)
                | _ => none)
             | none => none)
          | _ => none)
       | none => none)
    | _ => none
end

mutual
/-- Parser fuel sufficient for a value (one unit per nesting step). -/
def fuelV : JsonValue → Nat
  | .null => 1
  | .bool _ => 1
  | .num _ => 1
  | .str _ => 1
  | .arr .nil => 1
  | .arr (.cons v t) => 1 + fuelE v t
  | .obj .nil => 1
  | .obj (.cons k v t) => 1 + fuelM k v t
termination_by v => sizeOf v
decreasing_by all_goals (simp_wf; omega)

/-- Parser fuel sufficient for the elements from the first onward. -/
def fuelE : JsonValue → JsonElems → Nat
  | v, .nil => 1 + fuelV v
  | v, .cons v2 t => 1 + max (fuelV v) (fuelE v2 t)
termination_by v t => sizeOf v + sizeOf t + 1
decreasing_by all_goals (simp_wf; omega)

/-- Parser fuel sufficient for the members from the first onward. -/
def fuelM : String → JsonValue → JsonMembers → Nat
  | _, v, .nil => 1 + fuelV v
  | _, v, .cons k2 v2 t => 1 + max (fuelV v) (fuelM k2 v2 t)
termination_by _k v t => sizeOf v + sizeOf t + 1
decreasing_by all_goals (simp_wf; omega)
end

/-- JSON.parse: parse one value with fuel bounded by the text length, then
require only whitespace to remain. -/
def jsonParse (s : String) : Option JsonValue :=
  match parseValue (s.data.length + 1) s.data with
  | some (v, rest) => if skipWs rest = [] then some v else none
  | none => none

/-- Serialize a property set as a JSON object of strings. -/
def styleToJson (ps : List (String × String)) : JsonValue :=
  .obj (msOfList (ps.map (fun p => (p.1, .str p.2))))

/-- Serialize a bundle asset (key order vout, type, slot as in the schema). -/
def assetToJson (a : BundleAsset) : JsonValue :=
  .obj (.cons "vout" (.num a.vout) (.cons "type" (.str a.type) (.cons "slot" (.str a.slot) .nil)))

/-- Serialize bundle metadata. -/
def bundleToJson (b : ThemeBundle) : JsonValue :=
  .obj (.cons "version" (.num b.version)
    (.cons "assets" (.arr (esOfList (b.assets.map assetToJson))) .nil))

/-- Serialize the nested rules record. -/
def rulesToJson (r : List (String × List (String × String))) : JsonValue :=
  .obj (msOfList (r.map (fun p => (p.1, styleToJson p.2))))

/-- Serialize the css rules record. -/
def cssToJson (c : CssRules) : JsonValue :=
  .obj (match c.layerBase with
    | some lb => .cons "@layer base" (rulesToJson lb) .nil
    | none => .nil)

/-- The JSON value of a ThemeToken, with keys in schema declaration order and
optional fields omitted when absent, exactly as JSON.stringify serializes the
validated document object. -/
def themeToJsonValue (t : ThemeToken) : JsonValue :=
  .obj (msOfList (
    [("$schema", JsonValue.str t.schema), ("name", JsonValue.str t.name)] ++
    (match t.author with
     | some a => [("author", JsonValue.str a)]
     | none => []) ++
    (match t.bundle with
     | some b => [("bundle", bundleToJson b)]
     | none => []) ++
    [("styles", JsonValue.obj (msOfList
      [("light", styleToJson t.styles.light), ("dark", styleToJson t.styles.dark)]))] ++
    (match t.css with
     | some c => [("css", cssToJson c)]
     | none => [])))

/-- toJson from the transform module: JSON.stringify of the document, with
two-space indentation when pretty (the default). -/
def toJson (theme : ThemeToken) (pretty : Bool := true) : String :=
  jsonStringify (themeToJsonValue theme) pretty

/-- The twenty required property names of corePropsSchema, in shape order. -/
def coreKeys : List String :=
  ["background", "foreground", "card", "card-foreground", "popover",
   "popover-foreground", "primary", "primary-foreground", "secondary",
   "secondary-foreground", "muted", "muted-foreground", "accent",
   "accent-foreground", "destructive", "destructive-foreground", "border",
   "input", "ring", "radius"]

/-- Read the shape keys of the style-props schema from an object: each core
key must be present with a string value. -/
def collectCore : List String → JsonMembers → Option (List (String × String))
  | [], _ => some []
  | key :: ks, ms =>
    match jFind ms key with
    | some (.str s) => (collectCore ks ms).map (fun l => (key, s) :: l)
    | _ => none

/-- Check the catchall over the non-shape keys: every other value must be a
string; the extras keep their input order. -/
def collectExtras : List (String × JsonValue) → Option (List (String × String))
  | [] => some []
  | (key, v) :: t =>
    if coreKeys.contains key then collectExtras t
    else
      match v with
      | .str s => (collectExtras t).map (fun l => (key, s) :: l)
      | _ => none

/-- themeStylePropsSchema (corePropsSchema with a string catchall): the zod
output lists the shape keys in shape order and then the remaining keys in
input order. -/
def validateStyleProps : JsonValue → Option (List (String × String))
  | .obj ms =>
    (collectCore coreKeys ms).bind (fun core =>
      (collectExtras (memsList ms)).map (fun extras => core ++ extras))
  | _ => none

/-- The asset type enumeration. -/
def assetTypes : List String := ["font", "pattern", "wallpaper", "icon"]

/-- bundleAssetSchema: integer vout at least 0, enumerated type, string slot. -/
def validateAsset : JsonValue → Option BundleAsset
  | .obj ms =>
    (match jFind ms "vout" with
     | some (.num n) =>
       if 0 ≤ n then
         (match jFind ms "type" with
          | some (.str ty) =>
            if assetTypes.contains ty then
              (match jFind ms "slot" with
               | some (.str sl) => some { vout := n, type := ty, slot := sl }
               | _ => none)
            else none
          | _ => none)
       else none
     | _ => none)
  | _ => none

/-- Validate every element of the assets array. -/
def validateAssetList : JsonElems → Option (List BundleAsset)
  | .nil => some []
  | .cons v t =>
    (validateAsset v).bind (fun a => (validateAssetList t).map (fun l => a :: l))

/-- bundleSchema: version must be the literal 1, assets an array of assets. -/
def validateBundle : JsonValue → Option ThemeBundle
  | .obj ms =>
    (match jFind ms "version" with
     | some (.num n) =>
       if n = 1 then
         (match jFind ms "assets" with
          | some (.arr es) => (validateAssetList es).map (fun l => { version := n, assets := l })
          | _ => none)
       else none
     | _ => none)
  | _ => none

/-- A record of strings (z.record(z.string(), z.string())): an object whose
values are all strings, keys kept in input order. -/
def validateRecord2 : JsonValue → Option (List (String × String))
  | .obj ms => recordStrings (memsList ms)
  | _ => none
where
  /-- Collect the string values. -/
  recordStrings : List (String × JsonValue) → Option (List (String × String))
    | [] => some []
    | (key, .str s) :: t => (recordStrings t).map (fun l => (key, s) :: l)
    | _ => none

/-- The record of records under the at-layer-base key. -/
def validateRules : JsonValue → Option (List (String × List (String × String)))
  | .obj ms => rulesOf (memsList ms)
  | _ => none
where
  /-- Validate each selector's record. -/
  rulesOf : List (String × JsonValue) → Option (List (String × List (String × String)))
    | [] => some []
    | (key, v) :: t =>
      (validateRecord2 v).bind (fun r => (rulesOf t).map (fun l => (key, r) :: l))

/-- cssRulesSchema: an object with an optional at-layer-base record (unknown
keys are stripped by the zod object). -/
def validateCss : JsonValue → Option CssRules
  | .obj ms =>
    (match jFind ms "@layer base" with
     | none => some { layerBase := none }
     | some v => (validateRules v).map (fun r => { layerBase := some r }))
  | _ => none

/-- An optional object field: absent is fine, present must validate. -/
def optField (ms : JsonMembers) (key : String) (f : JsonValue → Option α) :
    Option (Option α) :=
  match jFind ms key with
  | none => some none
  | some v => (f v).map some

/-- A required string field. -/
def asStr : Option JsonValue → Option String
  | some (.str s) => some s
  | _ => none

/-- themeStylesSchema: an object with light and dark style-props members. -/
def stylesOf : Option JsonValue → Option ThemeStyles
  | some (.obj sms) =>
    (match jFind sms "light" with
     | some lv =>
       (validateStyleProps lv).bind (fun l =>
         match jFind sms "dark" with
         | some dv => (validateStyleProps dv).map (fun d => { light := l, dark := d })
         | none => none)
     | none => none)
  | _ => none

/-- themeTokenSchema.safeParse, successful case: required string fields,
optional author, optional bundle, required styles, optional css; unknown keys
are stripped. -/
def validateThemeTokenOpt (data : JsonValue) : Option ThemeToken :=
  match data with
  | .obj ms =>
    (asStr (jFind ms "$schema")).bind (fun schemaV =>
    (asStr (jFind ms "name")).bind (fun nameV =>
    (optField ms "author" (fun v => asStr (some v))).bind (fun authorV =>
    (optField ms "bundle" validateBundle).bind (fun bundleV =>
    (stylesOf (jFind ms "styles")).bind (fun stylesV =>
    (optField ms "css" validateCss).map (fun cssV =>
      { schema := schemaV, name := nameV, author := authorV, bundle := bundleV,
        styles := stylesV, css := cssV }))))))
  | _ => none

/-- The ValidationResult discriminated union. -/
inductive ValidationResult where
  | valid (theme : ThemeToken)
  | invalid (error : String)
deriving DecidableEq, Repr

/-- validateThemeToken from src/schema.ts: safeParse and wrap.  The failure
message is zod's issue report in the source; its text is not modelled (no
claim depends on it), only the fact of failure. -/
def validateThemeToken (data : JsonValue) : ValidationResult :=
  match validateThemeTokenOpt data with
  | some t => .valid t
  | none => .invalid "schema validation failed"

/-- Unique keys in a string property set. -/
def psKeysNodup : List (String × String) → Bool
  | [] => true
  | (k, _) :: t => !(psHas t k) && psKeysNodup t

/-- Unique keys across a rules record and within each inner record. -/
def rulesNodup : List (String × List (String × String)) → Bool
  | [] => true
  | (k, r) :: t =>
    !(t.any (fun p => p.1 = k)) && psKeysNodup r && rulesNodup t

/-- Realizability of a ThemeToken as a JavaScript object graph: the property
mappings have unique keys (JavaScript objects cannot hold duplicates). -/
def themeWF (t : ThemeToken) : Bool :=
  psKeysNodup t.styles.light && psKeysNodup t.styles.dark &&
  (match t.css with
   | some c =>
     (match c.layerBase with
      | some lb => rulesNodup lb
      | none => true)
   | none => true)

/-- The light-mode property set parsed by parseCss for a given :root body. -/
def lightOf (css body : String) : List (String × String) :=
  parseCssBlock body (buildVarLookup css)

/-- The dark-mode property set parsed by parseCss: the .dark block when
present, otherwise the light-mode fallback. -/
def darkOf (css body : String) : List (String × String) :=
  match darkBlockOf css with
  | some darkBody => parseCssBlock darkBody (buildVarLookup css)
  | none => lightOf css body

/-- The required-property values of the repository test theme (shared light
and dark shape for fixtures). -/
def corePropsFix : List (String × String) :=
  [("background", "oklch(1 0 0)"), ("foreground", "oklch(0.145 0 0)"),
   ("card", "oklch(1 0 0)"), ("card-foreground", "oklch(0.145 0 0)"),
   ("popover", "oklch(1 0 0)"), ("popover-foreground", "oklch(0.145 0 0)"),
   ("primary", "oklch(0.205 0 0)"), ("primary-foreground", "oklch(0.985 0 0)"),
   ("secondary", "oklch(0.97 0 0)"), ("secondary-foreground", "oklch(0.205 0 0)"),
   ("muted", "oklch(0.97 0 0)"), ("muted-foreground", "oklch(0.556 0 0)"),
   ("accent", "oklch(0.97 0 0)"), ("accent-foreground", "oklch(0.205 0 0)"),
   ("destructive", "oklch(0.577 0.245 27.325)"),
   ("destructive-foreground", "oklch(0.985 0 0)"), ("border", "oklch(0.922 0 0)"),
   ("input", "oklch(0.922 0 0)"), ("ring", "oklch(0.708 0 0)"),
   ("radius", "0.625rem")]

/-- A fully valid sample document. -/
def sampleDoc : ThemeToken :=
  { schema := themeTokenSchemaUrl
    name := "Test Theme"
    author := none
    bundle := none
    styles := { light := corePropsFix, dark := corePropsFix }
    css := none }

/-- A document identical to the sample except that the required background
property of light mode is bound to the empty string. -/
def emptyBgDoc : ThemeToken :=
  { sampleDoc with
    styles := { light := psUpsert corePropsFix "background" "", dark := corePropsFix } }

/-- A valid document whose light mode holds an extra property whose value is
the literal text letter-spacing. -/
def trackingValueDoc : ThemeToken :=
  { sampleDoc with
    styles := { light := corePropsFix ++ [("note", "letter-spacing")], dark := corePropsFix } }

/-- A stylesheet with a :root block holding all twenty required properties
and no .dark block. -/
def allCoreCss : String :=
  ":root \x7b --background: oklch(1 0 0); --foreground: oklch(0.145 0 0); " ++
  "--card: oklch(1 0 0); --card-foreground: oklch(0.145 0 0); " ++
  "--popover: oklch(1 0 0); --popover-foreground: oklch(0.145 0 0); " ++
  "--primary: oklch(0.205 0 0); --primary-foreground: oklch(0.985 0 0); " ++
  "--secondary: oklch(0.97 0 0); --secondary-foreground: oklch(0.205 0 0); " ++
  "--muted: oklch(0.97 0 0); --muted-foreground: oklch(0.556 0 0); " ++
  "--accent: oklch(0.97 0 0); --accent-foreground: oklch(0.205 0 0); " ++
  "--destructive: oklch(0.577 0.245 27.325); --destructive-foreground: oklch(0.985 0 0); " ++
  "--border: oklch(0.922 0 0); --input: oklch(0.922 0 0); " ++
  "--ring: oklch(0.708 0 0); --radius: 0.625rem; \x7d"

/-- The same stylesheet except that background references an undeclared
variable, leaving it unresolved. -/
def allCoreUnresolvedCss : String :=
  ":root \x7b --background: var(--nope); --foreground: oklch(0.145 0 0); " ++
  "--card: oklch(1 0 0); --card-foreground: oklch(0.145 0 0); " ++
  "--popover: oklch(1 0 0); --popover-foreground: oklch(0.145 0 0); " ++
  "--primary: oklch(0.205 0 0); --primary-foreground: oklch(0.985 0 0); " ++
  "--secondary: oklch(0.97 0 0); --secondary-foreground: oklch(0.205 0 0); " ++
  "--muted: oklch(0.97 0 0); --muted-foreground: oklch(0.556 0 0); " ++
  "--accent: oklch(0.97 0 0); --accent-foreground: oklch(0.205 0 0); " ++
  "--destructive: oklch(0.577 0.245 27.325); --destructive-foreground: oklch(0.985 0 0); " ++
  "--border: oklch(0.922 0 0); --input: oklch(0.922 0 0); " ++
  "--ring: oklch(0.708 0 0); --radius: 0.625rem; \x7d"

/-- Four unresolved references and no background: the missing-property check
precedes the unresolved-references check. -/
def fourUnresolvedCss : String :=
  ":root \x7b --a: var(--n1); --b: var(--n2); --c: var(--n3); --d: var(--n4); \x7d"

/-- All four required properties plus four unresolved references. -/
def unresolvedWitnessCss : String :=
  ":root \x7b --background: a; --foreground: b; --primary: c; --radius: d; " ++
  "--e1: var(--m1); --e2: var(--m2); --e3: var(--m3); --e4: var(--m4); \x7d"

/-- All four required properties plus a compound reference value (fallback
clause), which the resolver leaves unchanged by design. -/
def compoundVarCss : String :=
  ":root \x7b --background: a; --foreground: b; --primary: c; --radius: d; " ++
  "--extra: var(--x, blue); \x7d"

/-- A compound reference value and no background property. -/
def compoundVarNoBgCss : String :=
  ":root \x7b --extra: var(--x, blue); --foreground: b; --primary: c; --radius: d; \x7d"

/-- A stylesheet whose :root values are all fully resolved and whose .dark
block alone retains a compound reference value with a fallback clause. -/
def darkCompoundVarCss : String :=
  ":root \x7b --background: a; --foreground: b; --primary: c; --radius: d; \x7d " ++
  ".dark \x7b --background: a; --extra: var(--x, blue); \x7d"

/-- The :root body capture of darkCompoundVarCss. -/
def darkCompoundVarBody : String :=
  " --background: a; --foreground: b; --primary: c; --radius: d; "

/-- The :root body capture of unresolvedWitnessCss. -/
def unresolvedWitnessBody : String :=
  " --background: a; --foreground: b; --primary: c; --radius: d; " ++
  "--e1: var(--m1); --e2: var(--m2); --e3: var(--m3); --e4: var(--m4); "

/-- The :root body capture of allCoreCss. -/
def allCoreBody : String :=
  " --background: oklch(1 0 0); --foreground: oklch(0.145 0 0); " ++
  "--card: oklch(1 0 0); --card-foreground: oklch(0.145 0 0); " ++
  "--popover: oklch(1 0 0); --popover-foreground: oklch(0.145 0 0); " ++
  "--primary: oklch(0.205 0 0); --primary-foreground: oklch(0.985 0 0); " ++
  "--secondary: oklch(0.97 0 0); --secondary-foreground: oklch(0.205 0 0); " ++
  "--muted: oklch(0.97 0 0); --muted-foreground: oklch(0.556 0 0); " ++
  "--accent: oklch(0.97 0 0); --accent-foreground: oklch(0.205 0 0); " ++
  "--destructive: oklch(0.577 0.245 27.325); --destructive-foreground: oklch(0.985 0 0); " ++
  "--border: oklch(0.922 0 0); --input: oklch(0.922 0 0); " ++
  "--ring: oklch(0.708 0 0); --radius: 0.625rem; "

/-- The :root body capture of compoundVarCss. -/
def compoundVarBody : String :=
  " --background: a; --foreground: b; --primary: c; --radius: d; " ++
  "--extra: var(--x, blue); "

/-! Helper lemmas. -/

theorem strEqOfData {a b : String} (h : a.data = b.data) : a = b := by
  cases a; cases b; exact congrArg String.mk h

theorem strMkData (s : String) : String.mk s.data = s := rfl

theorem dataAppend (a b : String) : (a ++ b).data = a.data ++ b.data := rfl

theorem strAppendAssoc (a b c : String) : a ++ b ++ c = a ++ (b ++ c) := by
  apply strEqOfData
  simp [dataAppend]

theorem psFind_append (a b : List (String × String)) (x : String) :
    psFind (a ++ b) x =
      match psFind a x with
      | some v => some v
      | none => psFind b x := by
  induction a with
  | nil => simp [psFind]
  | cons e t ih =>
    obtain ⟨k, v⟩ := e
    by_cases h : k = x <;> simp [psFind, h, ih]

theorem strContainsSub_suffix (a b : String) : strContainsSub (a ++ b) b = true := by
  unfold strContainsSub
  rw [List.any_eq_true]
  refine ⟨a.data.length, ?_, ?_⟩
  · rw [List.mem_range, dataAppend, List.length_append]
    omega
  · rw [dataAppend, List.drop_left]
    exact List.isPrefixOf_iff_prefix.mpr (List.prefix_refl _)

theorem buildVarLookup_foldl (l : List (String × String))
    (acc : List (String × String)) (x : String) :
    psFind (l.foldl
      (fun lookup d => if psHas lookup d.1 then lookup else lookup ++ [(d.1, jsTrim d.2)])
      acc) x =
      match psFind acc x with
      | some v => some v
      | none => (l.find? (fun p => p.1 == x)).map (fun p => jsTrim p.2) := by
  induction l generalizing acc with
  | nil => cases h : psFind acc x <;> simp [h]
  | cons d t ih =>
    obtain ⟨k, v⟩ := d
    rw [List.foldl_cons, ih]
    by_cases hk : psHas acc k
    · simp only [hk, if_pos]
      cases h : psFind acc x with
      | some w => simp
      | none =>
        have hkx : (k == x) = false := by
          by_cases he : k = x
          · subst he
            simp [psHas, h] at hk
          · simp [he]
        simp [List.find?_cons, hkx]
    · simp only [hk, if_neg, Bool.not_eq_true]
      rw [psFind_append]
      cases h : psFind acc x with
      | some w => simp
      | none =>
        by_cases he : k = x
        · subst he
          simp [psFind, List.find?_cons]
        · simp [psFind, he, List.find?_cons, show (k == x) = false by simp [he]]

/-- C5: the variable lookup table applies first-occurrence-wins: for every
source text and name, the table maps the name to the (trimmed) raw value of
its first declaration in text order, and in particular a text declaring
--x: 1; and later --x: 2; gives lookup x = 1. -/
theorem buildVarLookup_firstWins :
    (∀ css x, psFind (buildVarLookup css) x =
      ((scanVarDecls css).find? (fun p => p.1 == x)).map (fun p => jsTrim p.2)) ∧
    psFind (buildVarLookup ":root \x7b --x: 1; \x7d\n.dark \x7b --x: 2; \x7d") "x" =
      some "1" := by
  constructor
  · intro css x
    rw [buildVarLookup, buildVarLookup_foldl]
    simp [psFind]
  · decide

/-- C4: the resolver returns non-reference values unchanged, resolves the two
built-in names to fixed constants regardless of the lookup table, and returns
a reference to a name absent from the lookup table unchanged. -/
theorem resolveVar_cases :
    (∀ v lookup, varMatch v = none → resolveVar v lookup = v) ∧
    (∀ lookup, resolveVar "var(--color-white)" lookup = "oklch(1 0 0)" ∧
      resolveVar "var(--color-black)" lookup = "oklch(0 0 0)") ∧
    (∀ v n lookup, varMatch v = some n → n ≠ "color-white" → n ≠ "color-black" →
      psFind lookup n = none → resolveVar v lookup = v) := by
  refine ⟨?_, ?_, ?_⟩
  · intro v lookup h
    show resolveVarF (31 + 1) v lookup = v
    simp [resolveVarF, h]
  · intro lookup
    constructor
    · show resolveVarF (31 + 1) _ lookup = _
      simp [resolveVarF, show varMatch "var(--color-white)" = some "color-white" from by decide]
    · show resolveVarF (31 + 1) _ lookup = _
      simp [resolveVarF, show varMatch "var(--color-black)" = some "color-black" from by decide]
  · intro v n lookup h hw hb hf
    show resolveVarF (31 + 1) v lookup = v
    simp [resolveVarF, h, hw, hb, hf]

/-- Witness for C4 at concrete inputs. -/
theorem resolveVar_cases_witness :
    resolveVar "blue" [] = "blue" ∧
    (resolveVar "var(--color-white)" [("color-white", "x")] = "oklch(1 0 0)" ∧
     resolveVar "var(--color-black)" [("color-black", "y")] = "oklch(0 0 0)") ∧
    resolveVar "var(--missing)" [("other", "1")] = "var(--missing)" :=
  ⟨resolveVar_cases.1 "blue" [] (by decide),
   ⟨(resolveVar_cases.2.1 [("color-white", "x")]).1,
    (resolveVar_cases.2.1 [("color-black", "y")]).2⟩,
   resolveVar_cases.2.2 "var(--missing)" "missing" [("other", "1")]
     (by decide) (by decide) (by decide) (by decide)⟩

/-- C3: the depth-bounded resolver is total; fuel exhaustion returns the value
unchanged (treated as unresolved); whenever the unbounded source recursion
terminates (every acyclic chain), every sufficiently large depth bound
computes the same result; and at the concrete bound 32 a cyclic
self-reference terminates with the original reference unchanged. -/
theorem resolveVar_terminates :
    (∀ v lookup, resolveVarF 0 v lookup = v) ∧
    (∀ lookup v out, ResolveRel lookup v out →
      ∃ N, ∀ fuel, N ≤ fuel → resolveVarF fuel v lookup = out) ∧
    resolveVar "var(--a)" [("a", "var(--a)")] = "var(--a)" := by
  refine ⟨fun v lookup => rfl, ?_, by decide⟩
  intro lookup v out h
  induction h with
  | noRef w hw =>
    refine ⟨1, fun fuel hf => ?_⟩
    obtain ⟨fuel2, rfl⟩ := Nat.exists_eq_add_of_le hf
    rw [Nat.add_comm]
    simp [resolveVarF, hw]
  | white w hw =>
    refine ⟨1, fun fuel hf => ?_⟩
    obtain ⟨fuel2, rfl⟩ := Nat.exists_eq_add_of_le hf
    rw [Nat.add_comm]
    simp [resolveVarF, hw]
  | black w hw =>
    refine ⟨1, fun fuel hf => ?_⟩
    obtain ⟨fuel2, rfl⟩ := Nat.exists_eq_add_of_le hf
    rw [Nat.add_comm]
    simp [resolveVarF, hw]
  | notFound w nm hm hw hb hf =>
    refine ⟨1, fun fuel hfu => ?_⟩
    obtain ⟨fuel2, rfl⟩ := Nat.exists_eq_add_of_le hfu
    rw [Nat.add_comm]
    simp [resolveVarF, hm, hw, hb, hf]
  | falsy w nm hm hw hb hf =>
    refine ⟨1, fun fuel hfu => ?_⟩
    obtain ⟨fuel2, rfl⟩ := Nat.exists_eq_add_of_le hfu
    rw [Nat.add_comm]
    simp [resolveVarF, hm, hw, hb, hf]
  | step w nm r out2 hm hw hb hf hr hrel ih =>
    obtain ⟨N, hN⟩ := ih
    refine ⟨N + 1, fun fuel hfu => ?_⟩
    obtain ⟨fuel2, rfl⟩ := Nat.exists_eq_add_of_le hfu
    have : N + 1 + fuel2 = (N + fuel2) + 1 := by omega
    rw [this]
    simp [resolveVarF, hm, hw, hb, hf, hr]
    exact hN (N + fuel2) (by omega)

/-- Witness for C3: a two-step acyclic chain resolved for all sufficient
depth bounds. -/
theorem resolveVar_terminates_witness :
    ∃ N, ∀ fuel, N ≤ fuel →
      resolveVarF fuel "var(--b)" [("b", "oklch(0.5 0 0)")] = "oklch(0.5 0 0)" :=
  resolveVar_terminates.2.1 [("b", "oklch(0.5 0 0)")] "var(--b)" "oklch(0.5 0 0)"
    (ResolveRel.step _ "b" "oklch(0.5 0 0)" _ (by decide) (by decide) (by decide)
      (by decide) (by decide) (ResolveRel.noRef _ (by decide)))

/-- C7: when the :root block is present but the parsed light-mode property set
lacks one of the four minimally required properties, parseCss fails with the
missing-property message naming the first missing property (external name,
with the double-dash sigil), and returns no document. -/
theorem parseCss_missingRequired (css nm body p : String)
    (hroot : rootBlockOf css = some body)
    (hmiss : firstMissingProp (lightOf css body) = some p) :
    parseCss css nm = .invalid ("Missing required property: --" ++ p) ∧
    strContainsSub ("Missing required property: --" ++ p) ("--" ++ p) = true := by
  constructor
  · rw [lightOf] at hmiss
    simp [parseCss, hroot, hmiss]
  · exact strContainsSub_suffix "Missing required property: " ("--" ++ p)

/-- Witness for C7: a stylesheet whose :root block lacks the background
property. -/
theorem parseCss_missingRequired_witness :
    parseCss ":root \x7b --foreground: a; \x7d" "T" =
      .invalid ("Missing required property: --" ++ "background") ∧
    strContainsSub ("Missing required property: --" ++ "background")
      ("--" ++ "background") = true :=
  parseCss_missingRequired ":root \x7b --foreground: a; \x7d" "T"
    " --foreground: a; " "background" (by decide) (by decide)

theorem listIsEmptyFalse {α : Type} {l : List α} (h : l ≠ []) : l.isEmpty = false := by
  cases l with
  | nil => exact absurd rfl h
  | cons a t => rfl

theorem parseCss_unresolved_aux (css nm body : String)
    (hroot : rootBlockOf css = some body)
    (hreq : firstMissingProp (lightOf css body) = none)
    (hunres : unresolvedRefs (lightOf css body) (darkOf css body) ≠ []) :
    parseCss css nm =
      .invalid (unresolvedMsg (unresolvedRefs (lightOf css body) (darkOf css body))) := by
  have hne := listIsEmptyFalse hunres
  cases hdark : darkBlockOf css with
  | none =>
    rw [darkOf, hdark] at hne ⊢
    rw [lightOf] at hreq hne ⊢
    simp [parseCss, hroot, hdark, hreq, hne, lightOf]
  | some darkBody =>
    rw [darkOf, hdark] at hne ⊢
    rw [lightOf] at hreq hne ⊢
    simp [parseCss, hroot, hdark, hreq, hne, lightOf]

/-- C8 (amended): when the :root block is present and the four minimally
required properties are present (otherwise the missing-property failure takes
precedence), any property value in either parsed mode that is still an
unresolved reference string makes parseCss fail with the message that lists at
most three offending names, appends the count of the remaining ones when more
than three, and instructs that input must hold resolved values; no document is
returned. -/
theorem parseCss_unresolvedRejected (css nm body : String)
    (hroot : rootBlockOf css = some body)
    (hreq : firstMissingProp (lightOf css body) = none)
    (hunres : unresolvedRefs (lightOf css body) (darkOf css body) ≠ []) :
    parseCss css nm =
      .invalid ("Unresolved var() references: " ++
        joinSepStr ", " ((unresolvedRefs (lightOf css body) (darkOf css body)).take 3) ++
        (if (unresolvedRefs (lightOf css body) (darkOf css body)).length > 3 then
          " and " ++
            natToStr ((unresolvedRefs (lightOf css body) (darkOf css body)).length - 3) ++
            " more"
         else "") ++
        ". Please paste CSS with resolved values.") :=
  parseCss_unresolved_aux css nm body hroot hreq hunres

/-- Witness for C8: four required properties and four unresolved references;
the message lists three and counts five remaining (light and dark copies). -/
theorem parseCss_unresolvedRejected_witness :
    parseCss unresolvedWitnessCss "T" =
      .invalid ("Unresolved var() references: " ++
        joinSepStr ", " ((unresolvedRefs
          (lightOf unresolvedWitnessCss unresolvedWitnessBody)
          (darkOf unresolvedWitnessCss unresolvedWitnessBody)).take 3) ++
        (if (unresolvedRefs (lightOf unresolvedWitnessCss unresolvedWitnessBody)
              (darkOf unresolvedWitnessCss unresolvedWitnessBody)).length > 3 then
          " and " ++
            natToStr ((unresolvedRefs (lightOf unresolvedWitnessCss unresolvedWitnessBody)
              (darkOf unresolvedWitnessCss unresolvedWitnessBody)).length - 3) ++
            " more"
         else "") ++
        ". Please paste CSS with resolved values.") :=
  parseCss_unresolvedRejected unresolvedWitnessCss "T" unresolvedWitnessBody
    (by decide) (by decide) (by decide)

/-- Counterexample for C8 as stated: a stylesheet with four property values
still unresolved but lacking the background property fails with the
missing-property message, which lists none of the offending names and carries
no remainder count. -/
theorem parseCss_unresolvedRejected_cex :
    parseCss fourUnresolvedCss "T" = .invalid "Missing required property: --background" ∧
    (match rootBlockOf fourUnresolvedCss with
     | some b =>
       decide ((unresolvedRefs (lightOf fourUnresolvedCss b)
         (darkOf fourUnresolvedCss b)).length = 8)
     | none => false) = true ∧
    strContainsSub "Missing required property: --background" "--a" = false ∧
    strContainsSub "Missing required property: --background" "more" = false := by
  decide

/-- C10 (amended): the orchestrator rejection is strictly broader than the
resolver's reference pattern: when the :root block and the four required
properties are present, any property value retained in either mode's parsed
set — the source scans the light and the dark set alike — that merely begins
with the characters var(, for instance the compound value var(--x, blue),
which is not a single bare reference and is left unchanged by the resolver,
makes parseCss fail with the unresolved-references error. -/
theorem parseCss_varPrefixRejected (css nm body k v : String)
    (hroot : rootBlockOf css = some body)
    (hreq : firstMissingProp (lightOf css body) = none)
    (hmem : (k, v) ∈ lightOf css body ∨ (k, v) ∈ darkOf css body)
    (hpre : strStarts v "var(" = true) :
    parseCss css nm =
      .invalid (unresolvedMsg (unresolvedRefs (lightOf css body) (darkOf css body))) ∧
    unresolvedRefs (lightOf css body) (darkOf css body) ≠ [] ∧
    varMatch "var(--x, blue)" = none ∧
    strStarts "var(--x, blue)" "var(" = true := by
  have hne : unresolvedRefs (lightOf css body) (darkOf css body) ≠ [] := by
    rw [unresolvedRefs]
    intro hcontra
    obtain ⟨h1, h2⟩ := List.append_eq_nil.mp hcontra
    rw [List.map_eq_nil_iff] at h1 h2
    cases hmem with
    | inl hm =>
      have : (k, v) ∈ (lightOf css body).filter (fun p => strStarts p.2 "var(") :=
        List.mem_filter.mpr ⟨hm, hpre⟩
      rw [h1] at this
      exact absurd this (List.not_mem_nil _)
    | inr hm =>
      have : (k, v) ∈ (darkOf css body).filter (fun p => strStarts p.2 "var(") :=
        List.mem_filter.mpr ⟨hm, hpre⟩
      rw [h2] at this
      exact absurd this (List.not_mem_nil _)
  exact ⟨parseCss_unresolved_aux css nm body hroot hreq hne, hne, by decide, by decide⟩

/-- Witness for C10: a compound fallback reference value retained in the
light set, and one retained only in a .dark block whose :root values are all
resolved. -/
theorem parseCss_varPrefixRejected_witness :
    (parseCss compoundVarCss "T" =
      .invalid (unresolvedMsg (unresolvedRefs
        (lightOf compoundVarCss compoundVarBody) (darkOf compoundVarCss compoundVarBody))) ∧
     unresolvedRefs (lightOf compoundVarCss compoundVarBody)
       (darkOf compoundVarCss compoundVarBody) ≠ [] ∧
     varMatch "var(--x, blue)" = none ∧
     strStarts "var(--x, blue)" "var(" = true) ∧
    (parseCss darkCompoundVarCss "T" =
      .invalid (unresolvedMsg (unresolvedRefs
        (lightOf darkCompoundVarCss darkCompoundVarBody)
        (darkOf darkCompoundVarCss darkCompoundVarBody))) ∧
     unresolvedRefs (lightOf darkCompoundVarCss darkCompoundVarBody)
       (darkOf darkCompoundVarCss darkCompoundVarBody) ≠ [] ∧
     varMatch "var(--x, blue)" = none ∧
     strStarts "var(--x, blue)" "var(" = true) :=
  ⟨parseCss_varPrefixRejected compoundVarCss "T" compoundVarBody "extra" "var(--x, blue)"
     (by decide) (by decide) (Or.inl (by decide)) (by decide),
   parseCss_varPrefixRejected darkCompoundVarCss "T" darkCompoundVarBody "extra"
     "var(--x, blue)" (by decide) (by decide) (Or.inr (by decide)) (by decide)⟩

/-- Counterexample for C10 as stated: a retained compound var( value together
with a missing background property fails with the missing-property message,
not the unresolved-references error. -/
theorem parseCss_varPrefixRejected_cex :
    parseCss compoundVarNoBgCss "T" = .invalid "Missing required property: --background" ∧
    (match rootBlockOf compoundVarNoBgCss with
     | some b => decide (("extra", "var(--x, blue)") ∈ lightOf compoundVarNoBgCss b)
     | none => false) = true ∧
    strStarts "var(--x, blue)" "var(" = true ∧
    strContainsSub "Missing required property: --background" "Unresolved" = false := by
  decide

/-- C2 (amended): a stylesheet whose :root block parses to a property set
holding all twenty required names, with no .dark block and no value left as an
unresolved reference, parses successfully with the dark-mode set equal to the
light-mode set and hasDarkMode false. -/
theorem parseCss_fallbackLight (css nm body : String)
    (hroot : rootBlockOf css = some body)
    (hdark : darkBlockOf css = none)
    (hcore : coreKeys.all (fun kk => psHas (lightOf css body) kk) = true)
    (hnores : unresolvedRefs (lightOf css body) (lightOf css body) = []) :
    ∃ theme metadata, parseCss css nm = .valid theme metadata ∧
      theme.styles.dark = theme.styles.light ∧ metadata.hasDarkMode = false := by
  have hc := List.all_eq_true.mp hcore
  have hreq : firstMissingProp (lightOf css body) = none := by
    rw [firstMissingProp, List.find?_eq_none]
    intro x hx
    fin_cases hx
    · simpa using hc "background" (by decide)
    · simpa using hc "foreground" (by decide)
    · simpa using hc "primary" (by decide)
    · simpa using hc "radius" (by decide)
  rw [lightOf] at hreq hnores
  refine ⟨{ schema := themeTokenSchemaUrl, name := nm, author := none, bundle := none,
            styles := { light := parseCssBlock body (buildVarLookup css),
                        dark := parseCssBlock body (buildVarLookup css) },
            css := (parseLayerBase css).map (fun lb => { layerBase := some lb }) },
          { lightPropertyCount := (parseCssBlock body (buildVarLookup css)).length,
            darkPropertyCount := (parseCssBlock body (buildVarLookup css)).length,
            totalPropertyCount :=
              distinctCount ((parseCssBlock body (buildVarLookup css)).map (·.1) ++
                (parseCssBlock body (buildVarLookup css)).map (·.1)),
            hasLightMode := true,
            hasDarkMode := false },
          ?_, rfl, rfl⟩
  simp only [parseCss, hroot, hdark, hreq]
  simp [hnores]

/-- Witness for C2: a :root block with all twenty required properties, no
.dark block, and fully resolved values. -/
theorem parseCss_fallbackLight_witness :
    ∃ theme metadata, parseCss allCoreCss "T" = .valid theme metadata ∧
      theme.styles.dark = theme.styles.light ∧ metadata.hasDarkMode = false :=
  parseCss_fallbackLight allCoreCss "T" allCoreBody
    (by decide) (by decide) (by decide) (by decide)

/-- Counterexample for C2 as stated: a :root block holding all twenty
required properties and no .dark block still fails to parse when a value is
an unresolved reference. -/
theorem parseCss_fallbackLight_cex :
    (match rootBlockOf allCoreUnresolvedCss with
     | some b => coreKeys.all (fun kk => psHas (lightOf allCoreUnresolvedCss b) kk)
     | none => false) = true ∧
    darkBlockOf allCoreUnresolvedCss = none ∧
    parseCss allCoreUnresolvedCss "T" =
      .invalid ("Unresolved var() references: --background, --background (dark). " ++
        "Please paste CSS with resolved values.") := by
  decide

theorem strEmptyAppend (s : String) : "" ++ s = s := by
  apply strEqOfData; simp [dataAppend]

theorem strAppendEmpty (s : String) : s ++ "" = s := by
  apply strEqOfData; simp [dataAppend]

theorem strConcat_append (a b : List String) :
    strConcat (a ++ b) = strConcat a ++ strConcat b := by
  induction a with
  | nil => simp [strConcat, strEmptyAppend]
  | cons x t ih => simp [strConcat, ih, strAppendAssoc]

theorem joinNl_eq (a : String) (l : List String) :
    joinNl (a :: l) = a ++ strConcat (l.map (fun x => "\n" ++ x)) := by
  induction l generalizing a with
  | nil => simp [joinNl, strConcat, strAppendEmpty]
  | cons b t ih => simp [joinNl, ih, strConcat, strAppendAssoc]

theorem declShift (ps : List (String × String)) (s : String) :
    strConcat ((ps.map declLine).map (fun x => "\n" ++ x)) ++ ("\n" ++ s) =
      "\n" ++ (declBlock ps ++ s) := by
  induction ps generalizing s with
  | nil => simp [strConcat, declBlock, strEmptyAppend]
  | cons p t ih =>
    simp only [List.map_cons, strConcat, declBlock, strAppendAssoc]
    rw [ih]
    simp [declBlock, strAppendAssoc]

theorem toCss_structure_eq (theme : ThemeToken) :
    toCss theme =
      ":root \x7b\n" ++ declBlock theme.styles.light ++ "\x7d\n\n.dark \x7b\n" ++
        declBlock theme.styles.dark ++ ("\x7d" ++ layerSuffix theme.css) := by
  rw [toCss]
  rw [show ([":root \x7b"] ++ theme.styles.light.map declLine ++
      ["\x7d", "", ".dark \x7b"] ++ theme.styles.dark.map declLine ++ ["\x7d"] ++
      layerLines theme.css) =
      ":root \x7b" :: (theme.styles.light.map declLine ++
        (["\x7d", "", ".dark \x7b"] ++ (theme.styles.dark.map declLine ++
          (["\x7d"] ++ layerLines theme.css)))) from by simp]
  rw [joinNl_eq]
  rw [show (":root \x7b\n" : String) = ":root \x7b" ++ "\n" from rfl]
  rw [show ("\x7d\n\n.dark \x7b\n" : String) =
    "\x7d" ++ ("\n" ++ ("\n" ++ (".dark \x7b" ++ "\n"))) from rfl]
  simp only [List.map_append, List.map_cons, List.map_nil, List.append_eq, List.nil_append,
    strConcat_append, strConcat, strAppendEmpty, strAppendAssoc, layerSuffix]
  rw [declShift theme.styles.light, declShift theme.styles.dark]

/-- C9 (amended): toCss emits the :root block first and the .dark block
second, each declaration in the property mapping's insertion order, with the
internal-only property names rewritten to their external declaration names, so
that no internal name ever appears as an emitted declaration name (property
values and nested rule text are emitted verbatim and may still contain such
text). -/
theorem toCss_structure (theme : ThemeToken) :
    (toCss theme =
      ":root \x7b\n" ++ declBlock theme.styles.light ++ "\x7d\n\n.dark \x7b\n" ++
        declBlock theme.styles.dark ++ ("\x7d" ++ layerSuffix theme.css)) ∧
    ∀ p ∈ theme.styles.light ++ theme.styles.dark, cssKeyOut p.1 ∉ internalNames := by
  refine ⟨toCss_structure_eq theme, ?_⟩
  intro p _
  by_cases h1 : p.1 = "letter-spacing"
  · simp [cssKeyOut, h1, internalNames]
  · by_cases h2 : p.1 = "shadow-offset-x"
    · simp [cssKeyOut, h1, h2, internalNames]
    · by_cases h3 : p.1 = "shadow-offset-y"
      · simp [cssKeyOut, h1, h2, h3, internalNames]
      · simp [cssKeyOut, h1, h2, h3, internalNames]

/-- Counterexample for the universal no-internal-name reading of C9: a valid
document holding the text letter-spacing as a property value serializes to
stylesheet text in which that internal name occurs. -/
theorem toCss_structure_cex :
    validateThemeTokenOpt (themeToJsonValue trackingValueDoc) = some trackingValueDoc ∧
    strContainsSub (toCss trackingValueDoc) "letter-spacing" = true := by
  decide

/-! JSON round-trip lemmas. -/

theorem charToNat_ofNat {m : Nat} (h : m < 55296) : (Char.ofNat m).toNat = m := by
  have hv : m.isValidChar := Or.inl h
  unfold Char.ofNat
  rw [dif_pos hv]
  simp [Char.ofNatAux, Char.toNat, UInt32.toNat, BitVec.toNat_ofNatLt]

theorem charOfNat_toNat (c : Char) : Char.ofNat c.toNat = c := by
  have hv : c.toNat.isValidChar := c.valid
  unfold Char.ofNat
  rw [dif_pos hv]
  apply Char.ext
  show UInt32.mk (BitVec.ofNatLt c.val.toNat _) = c.val
  apply UInt32.ext
  simp [UInt32.toNat, BitVec.toNat_ofNatLt]

theorem neOfToNat {c d : Char} (h : c.toNat ≠ d.toNat) : c ≠ d :=
  fun he => h (he ▸ rfl)

theorem digitToNat {c : Char} (h : isDigitCh c = true) : 48 ≤ c.toNat ∧ c.toNat ≤ 57 := by
  simp [isDigitCh] at h
  exact ⟨h.1, h.2⟩

theorem digitNotWs {c : Char} (h : isDigitCh c = true) : isJsonWs c = false := by
  obtain ⟨h1, h2⟩ := digitToNat h
  have hsp : c ≠ ' ' :=
    neOfToNat (show c.toNat ≠ (' ' : Char).toNat by
      rw [show (' ' : Char).toNat = 32 from rfl]; omega)
  have htab : c ≠ '\t' :=
    neOfToNat (show c.toNat ≠ ('\t' : Char).toNat by
      rw [show ('\t' : Char).toNat = 9 from rfl]; omega)
  have hnl : c ≠ '\n' :=
    neOfToNat (show c.toNat ≠ ('\n' : Char).toNat by
      rw [show ('\n' : Char).toNat = 10 from rfl]; omega)
  simp [isJsonWs, hsp, htab, hnl]
  omega

theorem skipWs_cons_not {c : Char} {r : List Char} (h : isJsonWs c = false) :
    skipWs (c :: r) = c :: r := by
  simp [skipWs, h]

theorem skipWs_cons_ws {c : Char} {r : List Char} (h : isJsonWs c = true) :
    skipWs (c :: r) = skipWs r := by
  simp [skipWs, h]

theorem skipWs_append {l r : List Char} (h : l.all isJsonWs = true) :
    skipWs (l ++ r) = skipWs r := by
  induction l with
  | nil => rfl
  | cons c t ih =>
    rw [List.all_cons, Bool.and_eq_true] at h
    rw [List.cons_append, skipWs_cons_ws h.1, ih h.2]

theorem digitChar_isDigit {n : Nat} (h : n < 10) : isDigitCh (Char.ofNat (48 + n)) = true := by
  have ht := charToNat_ofNat (show 48 + n < 55296 by omega)
  simp [isDigitCh, ht]
  omega

theorem natDigitsF_parse (fuel : Nat) :
    ∀ n acc rest, n < 10 ^ fuel →
      parseDigits (natDigitsF fuel n ++ rest) acc =
        parseDigits rest (acc * 10 ^ (natDigitsF fuel n).length + n) := by
  induction fuel with
  | zero =>
    intro n acc rest h
    have : n = 0 := by simpa using h
    subst this
    simp [natDigitsF]
  | succ fuel ih =>
    intro n acc rest h
    by_cases h10 : n < 10
    · rw [natDigitsF, if_pos h10]
      rw [List.cons_append, parseDigits, if_pos (digitChar_isDigit h10)]
      rw [charToNat_ofNat (show 48 + n < 55296 by omega)]
      congr 1
      simp [List.length_cons]
    · rw [natDigitsF, if_neg h10]
      have hdiv : n / 10 < 10 ^ fuel := by
        rw [Nat.div_lt_iff_lt_mul (by omega)]
        calc n < 10 ^ (fuel + 1) := h
        _ = 10 ^ fuel * 10 := by ring
      rw [List.append_assoc, ih (n / 10) acc _ hdiv, List.singleton_append, parseDigits,
        if_pos (digitChar_isDigit (Nat.mod_lt n (by omega)))]
      rw [charToNat_ofNat (show 48 + n % 10 < 55296 by
        have := Nat.mod_lt n (show 0 < 10 by omega); omega)]
      congr 1
      simp only [List.length_append, List.length_cons, List.length_nil]
      have h48 : (48 : Nat) + n % 10 - 48 = n % 10 := by omega
      rw [h48, pow_succ]
      have hmod := Nat.div_add_mod n 10
      set K := 10 ^ (natDigitsF fuel (n / 10)).length with hK
      ring_nf
      omega

theorem natDigits_parse (n acc : Nat) (rest : List Char) :
    parseDigits (natDigits n ++ rest) acc =
      parseDigits rest (acc * 10 ^ (natDigits n).length + n) := by
  have h1 : n < 10 ^ n := Nat.lt_pow_self (by omega) n
  have h2 : (10 : Nat) ^ n ≤ 10 ^ (n + 1) := Nat.pow_le_pow_right (by omega) (by omega)
  exact natDigitsF_parse (n + 1) n acc rest (by omega)

theorem parseDigits_stop {rest : List Char} (acc : Nat)
    (h : ∀ c, rest.head? = some c → isDigitCh c = false) :
    parseDigits rest acc = (acc, rest) := by
  cases rest with
  | nil => rfl
  | cons c t =>
    rw [parseDigits, if_neg]
    rw [h c rfl]
    simp

theorem natDigitsF_head (fuel : Nat) :
    ∀ n, n < 10 ^ fuel → 1 ≤ fuel →
      ∃ c cs, natDigitsF fuel n = c :: cs ∧ isDigitCh c = true := by
  induction fuel with
  | zero => intro n _ h1; omega
  | succ fuel ih =>
    intro n hn _
    by_cases h10 : n < 10
    · exact ⟨Char.ofNat (48 + n), [], by rw [natDigitsF, if_pos h10], digitChar_isDigit h10⟩
    · have hfuel : 1 ≤ fuel := by
        by_contra hc
        have : fuel = 0 := by omega
        subst this
        simp at hn
        omega
      have hdiv : n / 10 < 10 ^ fuel := by
        rw [Nat.div_lt_iff_lt_mul (by omega)]
        calc n < 10 ^ (fuel + 1) := hn
        _ = 10 ^ fuel * 10 := by ring
      obtain ⟨c, cs, hc, hd⟩ := ih (n / 10) hdiv hfuel
      exact ⟨c, cs ++ [Char.ofNat (48 + n % 10)], by rw [natDigitsF, if_neg h10, hc]; rfl, hd⟩

theorem natDigits_head (n : Nat) :
    ∃ c cs, natDigits n = c :: cs ∧ isDigitCh c = true := by
  have h1 : n < 10 ^ n := Nat.lt_pow_self (by omega) n
  have h2 : (10 : Nat) ^ n ≤ 10 ^ (n + 1) := Nat.pow_le_pow_right (by omega) (by omega)
  exact natDigitsF_head (n + 1) n (by omega) (by omega)

theorem hexVal_qhd : ∀ n : Nat, n < 16 → hexVal (quoteHexDigit n) = some n :=
  fun n h =>
    (by decide : ∀ m : Fin 16, hexVal (quoteHexDigit m.val) = some m.val) ⟨n, h⟩

theorem parse_quote_body (cs : List Char) :
    ∀ rest, parseStrBody ((cs.map escChar).flatten ++ ('"' :: rest)) = some (cs, rest) := by
  induction cs with
  | nil => intro rest; simp [parseStrBody]
  | cons c cs ih =>
    intro rest
    simp only [List.map_cons, List.flatten_cons, List.append_assoc]
    by_cases h1 : c = '"'
    · subst h1
      simp [escChar, parseStrBody, parseEsc, ih]
    · by_cases h2 : c = '\\'
      · subst h2
        simp [escChar, parseStrBody, parseEsc, ih]
      · by_cases h3 : c.toNat = 8
        · have hc : Char.ofNat 8 = c := by rw [← h3, charOfNat_toNat]
          simp [escChar, h1, h2, h3, parseStrBody, parseEsc, ih]
          exact hc
        · by_cases h4 : c.toNat = 12
          · have hc : Char.ofNat 12 = c := by rw [← h4, charOfNat_toNat]
            simp [escChar, h1, h2, h3, h4, parseStrBody, parseEsc, ih]
            exact hc
          · by_cases h5 : c = '\n'
            · subst h5
              simp [escChar, h1, h2, h3, h4, parseStrBody, parseEsc, ih]
            · by_cases h6 : c.toNat = 13
              · have hc : Char.ofNat 13 = c := by rw [← h6, charOfNat_toNat]
                simp [escChar, h1, h2, h3, h4, h5, h6, parseStrBody, parseEsc, ih]
                exact hc
              · by_cases h7 : c = '\t'
                · subst h7
                  simp [escChar, h1, h2, h3, h4, h5, h6, parseStrBody, parseEsc, ih]
                · by_cases h8 : c.toNat < 32
                  · have hhi := hexVal_qhd (c.toNat / 16) (by omega)
                    have hlo := hexVal_qhd (c.toNat % 16) (by omega)
                    have h01 : hexVal '0' = some 0 := by decide
                    have hhex : hex4 '0' '0' (quoteHexDigit (c.toNat / 16))
                        (quoteHexDigit (c.toNat % 16)) = some c.toNat := by
                      simp only [hex4, h01, hhi, hlo]
                      congr 1
                      omega
                    have hc : Char.ofNat c.toNat = c := charOfNat_toNat c
                    have hsur : (55296 ≤ c.toNat && c.toNat ≤ 57343) = false := by
                      have hn : ¬(55296 ≤ c.toNat) := by omega
                      simp [hn]
                    simp [escChar, h1, h2, h3, h4, h5, h6, h7, h8, parseStrBody, parseEsc,
                      hhex, hsur, ih, hc]
                  · simp [escChar, h1, h2, h3, h4, h5, h6, h7, h8, parseStrBody, ih]

theorem msOfList_memsList : ∀ ms : JsonMembers, msOfList (memsList ms) = ms
  | .nil => rfl
  | .cons k v t => by simp [memsList, msOfList, msOfList_memsList t]

theorem memsList_upsert_fresh :
    ∀ (acc : JsonMembers) (k : String) (v : JsonValue), mHasKey acc k = false →
      memsList (membersUpsert acc k v) = memsList acc ++ [(k, v)]
  | .nil, k, v, _ => rfl
  | .cons k0 v0 t, k, v, h => by
    rw [mHasKey, Bool.or_eq_false_iff] at h
    rw [membersUpsert, if_neg (by simpa using h.1)]
    simp [memsList, memsList_upsert_fresh t k v h.2]

theorem mHasKey_upsert :
    ∀ (acc : JsonMembers) (k key : String) (v : JsonValue),
      mHasKey (membersUpsert acc k v) key = (mHasKey acc key || k = key)
  | .nil, k, key, v => by simp [membersUpsert, mHasKey]
  | .cons k0 v0 t, k, key, v => by
    by_cases h : k0 = k
    · subst h
      rw [membersUpsert, if_pos rfl]
      simp [mHasKey]
      by_cases hk : k0 = key <;> simp [hk]
    · rw [membersUpsert, if_neg h]
      simp [mHasKey, mHasKey_upsert t k key v]
      by_cases hk : k0 = key <;> simp [hk]

theorem membersAssign_disjoint :
    ∀ (ms acc : JsonMembers),
      (∀ key, mHasKey acc key = true → mHasKey ms key = false) →
      mKeysNodup ms = true →
      membersAssign acc ms = msOfList (memsList acc ++ memsList ms)
  | .nil, acc, _, _ => by simp [membersAssign, memsList, msOfList_memsList]
  | .cons k v t, acc, hdisj, hnodup => by
    rw [mKeysNodup, Bool.and_eq_true] at hnodup
    have hkacc : mHasKey acc k = false := by
      by_contra hc
      have := hdisj k (by simpa using hc)
      rw [mHasKey] at this
      simp at this
    have hdisj2 : ∀ key, mHasKey (membersUpsert acc k v) key = true → mHasKey t key = false := by
      intro key hkey
      rw [mHasKey_upsert] at hkey
      rcases Bool.or_eq_true_iff.mp hkey with h | h
      · have := hdisj key h
        rw [mHasKey, Bool.or_eq_false_iff] at this
        exact this.2
      · have hkk : k = key := by simpa using h
        subst hkk
        simpa using hnodup.1
    rw [membersAssign, membersAssign_disjoint t (membersUpsert acc k v) hdisj2 hnodup.2]
    rw [memsList_upsert_fresh acc k v hkacc]
    simp [memsList]

theorem membersAssign_nil {ms : JsonMembers} (h : mKeysNodup ms = true) :
    membersAssign .nil ms = ms := by
  rw [membersAssign_disjoint ms .nil (fun key hk => by simp [mHasKey] at hk) h]
  simp [memsList, msOfList_memsList]

theorem skipWs_renderV (pretty : Bool) (ind : List Char) (v : JsonValue) (rest : List Char) :
    skipWs (renderV pretty ind v ++ rest) = renderV pretty ind v ++ rest := by
  cases v with
  | null =>
    simp only [renderV]
    exact skipWs_cons_not (by decide)
  | bool b =>
    cases b <;> (simp only [renderV]; exact skipWs_cons_not (by decide))
  | num n =>
    simp only [renderV, intChars]
    by_cases hn : n < 0
    · rw [if_pos hn]
      exact skipWs_cons_not (by decide)
    · rw [if_neg hn]
      obtain ⟨c, cs, hd, hdig⟩ := natDigits_head n.toNat
      rw [hd]
      exact skipWs_cons_not (digitNotWs hdig)
  | str s =>
    simp only [renderV, quoteJ]
    exact skipWs_cons_not (by decide)
  | arr es =>
    cases es with
    | nil =>
      simp only [renderV]
      exact skipWs_cons_not (by decide)
    | cons v t =>
      simp only [renderV]
      exact skipWs_cons_not (by decide)
  | obj ms =>
    cases ms with
    | nil =>
      simp only [renderV]
      exact skipWs_cons_not (by decide)
    | cons k v t =>
      simp only [renderV]
      exact skipWs_cons_not (by decide)

theorem fuelV_pos (v : JsonValue) : 1 ≤ fuelV v := by
  cases v with
  | arr es => cases es <;> simp [fuelV]
  | obj ms => cases ms <;> simp [fuelV]
  | null => simp [fuelV]
  | bool b => simp [fuelV]
  | num n => simp [fuelV]
  | str s => simp [fuelV]

theorem fuelE_pos (v : JsonValue) (t : JsonElems) : 1 ≤ fuelE v t := by
  cases t <;> simp [fuelE]

theorem fuelM_pos (k : String) (v : JsonValue) (t : JsonMembers) : 1 ≤ fuelM k v t := by
  cases t <;> simp [fuelM]

theorem quoteJ_len (s : String) : 1 ≤ (quoteJ s).length := by
  simp [quoteJ]

theorem intChars_len (n : Int) : 1 ≤ (intChars n).length := by
  rw [intChars]
  by_cases hn : n < 0
  · rw [if_pos hn]
    simp
  · rw [if_neg hn]
    obtain ⟨c, cs, hd, _⟩ := natDigits_head n.toNat
    rw [hd]
    simp

theorem fuel_le_len (k : Nat) :
    (∀ pretty ind v, fuelV v ≤ k → fuelV v ≤ (renderV pretty ind v).length) ∧
    (∀ pretty ind v t, fuelE v t ≤ k → fuelE v t ≤ (renderE pretty ind v t).length) ∧
    (∀ pretty ind ky v t, fuelM ky v t ≤ k → fuelM ky v t ≤ (renderM pretty ind ky v t).length) := by
  induction k with
  | zero =>
    exact ⟨fun p i v h => absurd h (by have := fuelV_pos v; omega),
           fun p i v t h => absurd h (by have := fuelE_pos v t; omega),
           fun p i ky v t h => absurd h (by have := fuelM_pos ky v t; omega)⟩
  | succ k ih =>
    obtain ⟨ihV, ihE, ihM⟩ := ih
    refine ⟨?_, ?_, ?_⟩
    · intro pretty ind v h
      cases v with
      | null => simp [renderV, fuelV]
      | bool b => cases b <;> simp [renderV, fuelV]
      | num n =>
        have := intChars_len n
        simp only [renderV, fuelV]
        omega
      | str s =>
        have := quoteJ_len s
        simp only [renderV, fuelV]
        omega
      | arr es =>
        cases es with
        | nil => simp [renderV, fuelV]
        | cons v t =>
          have h1 : fuelE v t ≤ k := by
            simp only [fuelV] at h
            omega
          have h2 := ihE pretty ind v t h1
          simp only [fuelV]
          cases pretty <;>
            (simp only [renderV, List.length_cons, List.length_append, List.length_nil,
              if_pos, if_neg, Bool.false_eq_true, not_false_iff, ite_true, ite_false]
             omega)
      | obj ms =>
        cases ms with
        | nil => simp [renderV, fuelV]
        | cons ky v t =>
          have h1 : fuelM ky v t ≤ k := by
            simp only [fuelV] at h
            omega
          have h2 := ihM pretty ind ky v t h1
          simp only [fuelV]
          cases pretty <;>
            (simp only [renderV, List.length_cons, List.length_append, List.length_nil,
              Bool.false_eq_true, not_false_iff, ite_true, ite_false]
             omega)
    · intro pretty ind v t h
      cases t with
      | nil =>
        have h1 : fuelV v ≤ k := by
          simp only [fuelE] at h
          omega
        have h2 := ihV pretty (ind ++ jGap) v h1
        simp only [fuelE]
        cases pretty <;>
          (simp only [renderE, List.length_cons, List.length_append, List.length_nil,
            Bool.false_eq_true, not_false_iff, ite_true, ite_false]
           omega)
      | cons v2 t2 =>
        have hmax : max (fuelV v) (fuelE v2 t2) ≤ k := by
          simp only [fuelE] at h
          omega
        have h2 := ihV pretty (ind ++ jGap) v (le_trans (le_max_left _ _) hmax)
        have h3 := ihE pretty ind v2 t2 (le_trans (le_max_right _ _) hmax)
        simp only [fuelE]
        cases pretty <;>
          (simp only [renderE, List.length_cons, List.length_append, List.length_nil,
            Bool.false_eq_true, not_false_iff, ite_true, ite_false]
           omega)
    · intro pretty ind ky v t h
      have hq := quoteJ_len ky
      cases t with
      | nil =>
        have h1 : fuelV v ≤ k := by
          simp only [fuelM] at h
          omega
        have h2 := ihV pretty (ind ++ jGap) v h1
        simp only [fuelM]
        cases pretty <;>
          (simp only [renderM, List.length_cons, List.length_append, List.length_nil,
            Bool.false_eq_true, not_false_iff, ite_true, ite_false]
           omega)
      | cons k2 v2 t2 =>
        have hmax : max (fuelV v) (fuelM k2 v2 t2) ≤ k := by
          simp only [fuelM] at h
          omega
        have h2 := ihV pretty (ind ++ jGap) v (le_trans (le_max_left _ _) hmax)
        have h3 := ihM pretty ind k2 v2 t2 (le_trans (le_max_right _ _) hmax)
        simp only [fuelM]
        cases pretty <;>
          (simp only [renderM, List.length_cons, List.length_append, List.length_nil,
            Bool.false_eq_true, not_false_iff, ite_true, ite_false]
           omega)

theorem renderV_head (pretty : Bool) (ind : List Char) (v : JsonValue) :
    ∃ hd tl, renderV pretty ind v = hd :: tl ∧ isJsonWs hd = false ∧
      hd ≠ ']' ∧ hd ≠ '\x7d' := by
  cases v with
  | null => exact ⟨'n', _, by simp [renderV]; rfl, by decide, by decide, by decide⟩
  | bool b =>
    cases b
    · exact ⟨'f', _, by simp [renderV]; rfl, by decide, by decide, by decide⟩
    · exact ⟨'t', _, by simp [renderV]; rfl, by decide, by decide, by decide⟩
  | num n =>
    by_cases hn : n < 0
    · exact ⟨'-', natDigits n.natAbs, by simp [renderV, intChars, hn], by decide, by decide,
        by decide⟩
    · obtain ⟨c, cs, hd, hdig⟩ := natDigits_head n.toNat
      refine ⟨c, cs, by simp [renderV, intChars, hn, hd], digitNotWs hdig, ?_, ?_⟩
      · obtain ⟨hl, hr⟩ := digitToNat hdig
        exact neOfToNat (show c.toNat ≠ (']' : Char).toNat by
          rw [show (']' : Char).toNat = 93 from rfl]; omega)
      · obtain ⟨hl, hr⟩ := digitToNat hdig
        exact neOfToNat (show c.toNat ≠ ('\x7d' : Char).toNat by
          rw [show ('\x7d' : Char).toNat = 125 from rfl]; omega)
  | str s =>
    exact ⟨'"', (s.data.map escChar).flatten ++ ['"'], by simp [renderV, quoteJ], by decide,
      by decide, by decide⟩
  | arr es =>
    cases es with
    | nil => exact ⟨'[', _, by simp [renderV]; rfl, by decide, by decide, by decide⟩
    | cons v t =>
      exact ⟨'[', (if pretty then '\n' :: (ind ++ jGap) else []) ++ renderE pretty ind v t,
        by simp [renderV], by decide, by decide, by decide⟩
  | obj ms =>
    cases ms with
    | nil => exact ⟨'\x7b', _, by simp [renderV]; rfl, by decide, by decide, by decide⟩
    | cons k v t =>
      exact ⟨'\x7b', (if pretty then '\n' :: (ind ++ jGap) else []) ++ renderM pretty ind k v t,
        by simp [renderV], by decide, by decide, by decide⟩

theorem skipWs_renderE (pretty : Bool) (ind : List Char) (v : JsonValue) (t : JsonElems)
    (rest : List Char) :
    skipWs (renderE pretty ind v t ++ rest) = renderE pretty ind v t ++ rest := by
  cases t <;>
    (simp only [renderE, List.append_assoc]
     exact skipWs_renderV pretty (ind ++ jGap) v _)
theorem skipWs_renderM (pretty : Bool) (ind : List Char) (ky : String) (v : JsonValue)
    (t : JsonMembers) (rest : List Char) :
    skipWs (renderM pretty ind ky v t ++ rest) = renderM pretty ind ky v t ++ rest := by
  cases t <;>
    (simp only [renderM, quoteJ, List.cons_append]
     exact skipWs_cons_not (by decide))


theorem parse_render (fuel : Nat) :
    (∀ (pretty : Bool) (ind : List Char) (v : JsonValue) (pre rest : List Char),
      fuelV v ≤ fuel →
      pre.all isJsonWs = true →
      ind.all isJsonWs = true →
      (∀ c, rest.head? = some c → isDigitCh c = false) →
      wfV v = true →
      parseValue fuel (pre ++ (renderV pretty ind v ++ rest)) = some (v, rest)) ∧
    (∀ (pretty : Bool) (ind : List Char) (v : JsonValue) (t : JsonElems) (rest : List Char),
      fuelE v t ≤ fuel →
      ind.all isJsonWs = true →
      wfE (.cons v t) = true →
      parseElems fuel (renderE pretty ind v t ++ rest) = some (.cons v t, rest)) ∧
    (∀ (pretty : Bool) (ind : List Char) (ky : String) (v : JsonValue) (t : JsonMembers)
        (rest : List Char),
      fuelM ky v t ≤ fuel →
      ind.all isJsonWs = true →
      wfM (.cons ky v t) = true →
      parseMembers fuel (renderM pretty ind ky v t ++ rest) = some (.cons ky v t, rest)) := by
  induction fuel with
  | zero =>
    exact ⟨fun p i v pre r h _ _ _ _ => absurd h (by have := fuelV_pos v; omega),
           fun p i v t r h _ _ => absurd h (by have := fuelE_pos v t; omega),
           fun p i ky v t r h _ _ => absurd h (by have := fuelM_pos ky v t; omega)⟩
  | succ k ih =>
    obtain ⟨ihV, ihE, ihM⟩ := ih
    refine ⟨?_, ?_, ?_⟩
    · intro pretty ind v pre rest hfuel hpre hind hrest hwf
      cases v with
      | null =>
        simp only [parseValue]
        rw [skipWs_append hpre, skipWs_renderV]
        simp only [renderV]
        rfl
      | bool b =>
        cases b <;>
          (simp only [parseValue]
           rw [skipWs_append hpre, skipWs_renderV]
           simp only [renderV]
           rfl)
      | num n =>
        simp only [parseValue]
        rw [skipWs_append hpre, skipWs_renderV]
        simp only [renderV, intChars]
        by_cases hn : n < 0
        · rw [if_pos hn]
          obtain ⟨c, cs, hc, hdig⟩ := natDigits_head n.natAbs
          have hparse2 : parseDigits (c :: (cs ++ rest)) 0 = (n.natAbs, rest) := by
            rw [← List.cons_append, ← hc, natDigits_parse, zero_mul, zero_add,
              parseDigits_stop _ hrest]
          rw [show ('-' :: natDigits n.natAbs) ++ rest =
            '-' :: (natDigits n.natAbs ++ rest) from rfl]
          rw [hc, List.cons_append]
          simp [hdig, hparse2]
          simp [abs_of_neg hn]
        · rw [if_neg hn]
          obtain ⟨c, cs, hc, hdig⟩ := natDigits_head n.toNat
          obtain ⟨hd48, hd57⟩ := digitToNat hdig
          have hparse2 : parseDigits (c :: (cs ++ rest)) 0 = (n.toNat, rest) := by
            rw [← List.cons_append, ← hc, natDigits_parse, zero_mul, zero_add,
              parseDigits_stop _ hrest]
          have e1 : ¬(c = 'n') := neOfToNat (show c.toNat ≠ ('n' : Char).toNat by
            rw [show ('n' : Char).toNat = 110 from rfl]; omega)
          have e2 : ¬(c = 't') := neOfToNat (show c.toNat ≠ ('t' : Char).toNat by
            rw [show ('t' : Char).toNat = 116 from rfl]; omega)
          have e3 : ¬(c = 'f') := neOfToNat (show c.toNat ≠ ('f' : Char).toNat by
            rw [show ('f' : Char).toNat = 102 from rfl]; omega)
          have e4 : ¬(c = '"') := neOfToNat (show c.toNat ≠ ('"' : Char).toNat by
            rw [show ('"' : Char).toNat = 34 from rfl]; omega)
          have e5 : ¬(c = '\x7b') := neOfToNat (show c.toNat ≠ ('\x7b' : Char).toNat by
            rw [show ('\x7b' : Char).toNat = 123 from rfl]; omega)
          have e6 : ¬(c = '[') := neOfToNat (show c.toNat ≠ ('[' : Char).toNat by
            rw [show ('[' : Char).toNat = 91 from rfl]; omega)
          have e7 : ¬(c = '-') := neOfToNat (show c.toNat ≠ ('-' : Char).toNat by
            rw [show ('-' : Char).toNat = 45 from rfl]; omega)
          rw [hc, List.cons_append]
          simp [e1, e2, e3, e4, e5, e6, e7, hdig, hparse2]
          omega
      | str s =>
        simp only [parseValue]
        rw [skipWs_append hpre, skipWs_renderV]
        simp only [renderV, quoteJ]
        rw [show ('"' :: ((s.data.map escChar).flatten ++ ['"'])) ++ rest =
          '"' :: ((s.data.map escChar).flatten ++ ('"' :: rest)) from by simp]
        simp [parse_quote_body, strMkData]
      | arr es =>
        cases es with
        | nil =>
          simp only [parseValue]
          rw [skipWs_append hpre, skipWs_renderV]
          simp only [renderV]
          rw [show ("[]".data ++ rest) = '[' :: (']' :: rest) from rfl]
          simp [skipWs, isJsonWs]
        | cons v t =>
          have h1 : fuelE v t ≤ k := by
            simp only [fuelV] at hfuel
            omega
          have hwfE : wfE (.cons v t) = true := by simpa [wfV] using hwf
          have hind2 : ((ind ++ jGap).all isJsonWs) = true := by
            rw [List.all_append, hind]
            decide
          obtain ⟨suffix, hEeq⟩ : ∃ suffix,
              renderE pretty ind v t = renderV pretty (ind ++ jGap) v ++ suffix := by
            cases t with
            | nil =>
              exact ⟨(if pretty then '\n' :: ind else []) ++ [']'], by simp [renderE]⟩
            | cons v2 t2 =>
              exact ⟨(if pretty then [',', '\n'] ++ (ind ++ jGap) else [',']) ++
                renderE pretty ind v2 t2, by simp [renderE]⟩
          obtain ⟨hd, tl, hhd, hdws, hne1, hne2⟩ := renderV_head pretty (ind ++ jGap) v
          have heq : renderE pretty ind v t ++ rest = hd :: (tl ++ suffix ++ rest) := by
            rw [hEeq, hhd]
            simp
          have hskip : skipWs ((if pretty then '\n' :: (ind ++ jGap) else []) ++
              (renderE pretty ind v t ++ rest)) = renderE pretty ind v t ++ rest := by
            cases pretty
            · rw [if_neg (by simp), List.nil_append, heq]
              exact skipWs_cons_not hdws
            · rw [if_pos rfl, List.cons_append, skipWs_cons_ws (by decide),
                skipWs_append hind2, heq]
              exact skipWs_cons_not hdws
          have hfinal : parseElems k (hd :: (tl ++ suffix ++ rest)) =
              some (JsonElems.cons v t, rest) := by
            rw [← heq]
            exact ihE pretty ind v t rest h1 hind hwfE
          have heq2 : renderE pretty ind v t ++ rest = hd :: (tl ++ (suffix ++ rest)) := by
            rw [heq]
            simp
          have hskip2 : skipWs ((if pretty = true then '\n' :: (ind ++ jGap) else []) ++
              hd :: (tl ++ (suffix ++ rest))) = hd :: (tl ++ (suffix ++ rest)) := by
            rw [← heq2]
            exact hskip
          have hfinal2 : parseElems k (hd :: (tl ++ (suffix ++ rest))) =
              some (JsonElems.cons v t, rest) := by
            rw [← heq2, heq]
            exact hfinal
          simp only [parseValue]
          rw [skipWs_append hpre, skipWs_renderV]
          simp only [renderV]
          rw [show (('[' :: ((if pretty then '\n' :: (ind ++ jGap) else []) ++
              renderE pretty ind v t)) ++ rest) =
            '[' :: ((if pretty then '\n' :: (ind ++ jGap) else []) ++
              (renderE pretty ind v t ++ rest)) from by simp]
          simp [heq2, hskip2, hne1, hfinal2]
      | obj ms =>
        cases ms with
        | nil =>
          simp only [parseValue]
          rw [skipWs_append hpre, skipWs_renderV]
          simp only [renderV]
          rw [show (['\x7b', '\x7d'] ++ rest) = '\x7b' :: ('\x7d' :: rest) from rfl]
          simp [skipWs, isJsonWs]
        | cons ky v t =>
          have h1 : fuelM ky v t ≤ k := by
            simp only [fuelV] at hfuel
            omega
          have hwfsplit : mKeysNodup (.cons ky v t) = true ∧ wfM (.cons ky v t) = true := by
            rw [wfV, Bool.and_eq_true] at hwf
            exact hwf
          have hind2 : ((ind ++ jGap).all isJsonWs) = true := by
            rw [List.all_append, hind]
            decide
          obtain ⟨suffix, hMeq⟩ : ∃ suffix,
              renderM pretty ind ky v t = quoteJ ky ++ suffix := by
            cases t with
            | nil =>
              exact ⟨(if pretty then [':', ' '] else [':']) ++ renderV pretty (ind ++ jGap) v ++
                ((if pretty then '\n' :: ind else []) ++ ['\x7d']), by simp [renderM]⟩
            | cons k2 v2 t2 =>
              exact ⟨(if pretty then [':', ' '] else [':']) ++ renderV pretty (ind ++ jGap) v ++
                ((if pretty then [',', '\n'] ++ (ind ++ jGap) else [',']) ++
                  renderM pretty ind k2 v2 t2), by simp [renderM]⟩
          have heq : renderM pretty ind ky v t ++ rest =
              '"' :: (((ky.data.map escChar).flatten ++ ['"']) ++ (suffix ++ rest)) := by
            rw [hMeq, quoteJ]
            simp
          have hskip : skipWs ((if pretty then '\n' :: (ind ++ jGap) else []) ++
              (renderM pretty ind ky v t ++ rest)) = renderM pretty ind ky v t ++ rest := by
            cases pretty
            · rw [if_neg (by simp), List.nil_append, heq]
              exact skipWs_cons_not (by decide)
            · rw [if_pos rfl, List.cons_append, skipWs_cons_ws (by decide),
                skipWs_append hind2, heq]
              exact skipWs_cons_not (by decide)
          have hassign : membersAssign .nil (.cons ky v t) = .cons ky v t :=
            membersAssign_nil hwfsplit.1
          have hfinal : parseMembers k
              ('"' :: (((ky.data.map escChar).flatten ++ ['"']) ++ (suffix ++ rest))) =
              some (JsonMembers.cons ky v t, rest) := by
            rw [← heq]
            exact ihM pretty ind ky v t rest h1 hind hwfsplit.2
          have heq2 : renderM pretty ind ky v t ++ rest =
              '"' :: ((ky.data.map escChar).flatten ++ '"' :: (suffix ++ rest)) := by
            rw [heq]
            simp
          have hskip2 : skipWs ((if pretty = true then '\n' :: (ind ++ jGap) else []) ++
              '"' :: ((ky.data.map escChar).flatten ++ '"' :: (suffix ++ rest))) =
              '"' :: ((ky.data.map escChar).flatten ++ '"' :: (suffix ++ rest)) := by
            rw [← heq2]
            exact hskip
          have hfinal2 : parseMembers k
              ('"' :: ((ky.data.map escChar).flatten ++ '"' :: (suffix ++ rest))) =
              some (JsonMembers.cons ky v t, rest) := by
            rw [← heq2, heq]
            exact hfinal
          simp only [parseValue]
          rw [skipWs_append hpre, skipWs_renderV]
          simp only [renderV]
          rw [show (('\x7b' :: ((if pretty then '\n' :: (ind ++ jGap) else []) ++
              renderM pretty ind ky v t)) ++ rest) =
            '\x7b' :: ((if pretty then '\n' :: (ind ++ jGap) else []) ++
              (renderM pretty ind ky v t ++ rest)) from by simp]
          simp [heq2, hskip2, hfinal2, hassign]
    · intro pretty ind v t rest hfuel hind hwfE0
      have hind2 : ((ind ++ jGap).all isJsonWs) = true := by
        rw [List.all_append, hind]
        decide
      cases t with
      | nil =>
        have hfv : fuelV v ≤ k := by
          simp only [fuelE] at hfuel
          omega
        have hwfv : wfV v = true := by
          rw [wfE, Bool.and_eq_true] at hwfE0
          exact hwfE0.1
        have hrest2 : ∀ c : Char,
            (((if pretty then '\n' :: ind else []) ++ (']' :: rest)).head? = some c) →
            isDigitCh c = false := by
          cases pretty <;> (intro c hc; simp at hc; subst hc; decide)
        have hv := ihV pretty (ind ++ jGap) v []
          ((if pretty then '\n' :: ind else []) ++ (']' :: rest)) hfv (by decide) hind2
          hrest2 hwfv
        rw [List.nil_append] at hv
        have hsk : skipWs ((if pretty then '\n' :: ind else []) ++ (']' :: rest)) =
            ']' :: rest := by
          cases pretty
          · rw [if_neg (by simp), List.nil_append]
            exact skipWs_cons_not (by decide)
          · rw [if_pos rfl, List.cons_append, skipWs_cons_ws (by decide), skipWs_append hind]
            exact skipWs_cons_not (by decide)
        simp only [parseElems]
        rw [show renderE pretty ind v .nil ++ rest =
          renderV pretty (ind ++ jGap) v ++
            ((if pretty then '\n' :: ind else []) ++ (']' :: rest)) from by simp [renderE]]
        rw [hv]
        simp [hsk]
      | cons v2 t2 =>
        have hmx : 1 + max (fuelV v) (fuelE v2 t2) ≤ k + 1 := by
          simpa only [fuelE] using hfuel
        have hfv : fuelV v ≤ k := by
          have := Nat.le_max_left (fuelV v) (fuelE v2 t2)
          omega
        have hfe2 : fuelE v2 t2 ≤ k := by
          have := Nat.le_max_right (fuelV v) (fuelE v2 t2)
          omega
        have hsplit : wfV v = true ∧ wfE (JsonElems.cons v2 t2) = true := by
          rw [wfE, Bool.and_eq_true] at hwfE0
          exact hwfE0
        have hrest2 : ∀ c : Char,
            (((if pretty then [',', '\n'] ++ (ind ++ jGap) else [',']) ++
              (renderE pretty ind v2 t2 ++ rest)).head? = some c) → isDigitCh c = false := by
          cases pretty <;> (intro c hc; simp at hc; subst hc; decide)
        have hv := ihV pretty (ind ++ jGap) v []
          ((if pretty then [',', '\n'] ++ (ind ++ jGap) else [',']) ++
            (renderE pretty ind v2 t2 ++ rest)) hfv (by decide) hind2 hrest2 hsplit.1
        rw [List.nil_append] at hv
        have hsk : skipWs ((if pretty then [',', '\n'] ++ (ind ++ jGap) else [',']) ++
            (renderE pretty ind v2 t2 ++ rest)) =
            ',' :: ((if pretty then '\n' :: (ind ++ jGap) else []) ++
              (renderE pretty ind v2 t2 ++ rest)) := by
          cases pretty
          · rw [if_neg (by simp), if_neg (by simp), List.nil_append]
            exact skipWs_cons_not (by decide)
          · rw [if_pos rfl, if_pos rfl]
            rw [show ([',', '\n'] ++ (ind ++ jGap)) ++ (renderE true ind v2 t2 ++ rest) =
              ',' :: (('\n' :: (ind ++ jGap)) ++ (renderE true ind v2 t2 ++ rest)) from by
              simp]
            exact skipWs_cons_not (by decide)
        have hsk2 : skipWs ((if pretty then '\n' :: (ind ++ jGap) else []) ++
            (renderE pretty ind v2 t2 ++ rest)) = renderE pretty ind v2 t2 ++ rest := by
          cases pretty
          · rw [if_neg (by simp), List.nil_append]
            exact skipWs_renderE false ind v2 t2 rest
          · rw [if_pos rfl, List.cons_append, skipWs_cons_ws (by decide), skipWs_append hind2]
            exact skipWs_renderE true ind v2 t2 rest
        have hrec := ihE pretty ind v2 t2 rest hfe2 hind hsplit.2
        have hsk3 : skipWs ((if pretty = true then ',' :: '\n' :: (ind ++ jGap) else [',']) ++
            (renderE pretty ind v2 t2 ++ rest)) =
            ',' :: ((if pretty = true then '\n' :: (ind ++ jGap) else []) ++
              (renderE pretty ind v2 t2 ++ rest)) := hsk
        simp only [parseElems]
        rw [show renderE pretty ind v (.cons v2 t2) ++ rest =
          renderV pretty (ind ++ jGap) v ++
            ((if pretty then [',', '\n'] ++ (ind ++ jGap) else [',']) ++
              (renderE pretty ind v2 t2 ++ rest)) from by simp [renderE]]
        rw [hv]
        simp [hsk3, hsk2, hrec]
    · intro pretty ind ky v t rest hfuel hind hwfM0
      have hind2 : ((ind ++ jGap).all isJsonWs) = true := by
        rw [List.all_append, hind]
        decide
      cases t with
      | nil =>
        have hfv : fuelV v ≤ k := by
          simp only [fuelM] at hfuel
          omega
        have hwfv : wfV v = true := by
          rw [wfM, Bool.and_eq_true] at hwfM0
          exact hwfM0.1
        have hrest2 : ∀ c : Char,
            (((if pretty then '\n' :: ind else []) ++ ('\x7d' :: rest)).head? = some c) →
            isDigitCh c = false := by
          cases pretty <;> (intro c hc; simp at hc; subst hc; decide)
        have hv := ihV pretty (ind ++ jGap) v (if pretty then [' '] else [])
          ((if pretty then '\n' :: ind else []) ++ ('\x7d' :: rest)) hfv
          (by cases pretty <;> decide) hind2 hrest2 hwfv
        have hsk : skipWs ((if pretty then '\n' :: ind else []) ++ ('\x7d' :: rest)) =
            '\x7d' :: rest := by
          cases pretty
          · rw [if_neg (by simp), List.nil_append]
            exact skipWs_cons_not (by decide)
          · rw [if_pos rfl, List.cons_append, skipWs_cons_ws (by decide), skipWs_append hind]
            exact skipWs_cons_not (by decide)
        have hq := parse_quote_body ky.data
          (':' :: ((if pretty then [' '] else []) ++ (renderV pretty (ind ++ jGap) v ++
            ((if pretty then '\n' :: ind else []) ++ ('\x7d' :: rest)))))
        have hskq : skipWs (':' :: ((if pretty then [' '] else []) ++
            (renderV pretty (ind ++ jGap) v ++
              ((if pretty then '\n' :: ind else []) ++ ('\x7d' :: rest))))) =
            ':' :: ((if pretty then [' '] else []) ++ (renderV pretty (ind ++ jGap) v ++
              ((if pretty then '\n' :: ind else []) ++ ('\x7d' :: rest)))) :=
          skipWs_cons_not (by decide)
        simp only [parseMembers]
        rw [show renderM pretty ind ky v .nil ++ rest =
          '"' :: ((ky.data.map escChar).flatten ++ ('"' ::
            (':' :: ((if pretty then [' '] else []) ++ (renderV pretty (ind ++ jGap) v ++
              ((if pretty then '\n' :: ind else []) ++ ('\x7d' :: rest))))))) from by
          cases pretty <;> simp [renderM, quoteJ]]
        simp [hq, hskq, hv, hsk, strMkData]
      | cons k2 v2 t2 =>
        have hmx : 1 + max (fuelV v) (fuelM k2 v2 t2) ≤ k + 1 := by
          simpa only [fuelM] using hfuel
        have hfv : fuelV v ≤ k := by
          have := Nat.le_max_left (fuelV v) (fuelM k2 v2 t2)
          omega
        have hfm2 : fuelM k2 v2 t2 ≤ k := by
          have := Nat.le_max_right (fuelV v) (fuelM k2 v2 t2)
          omega
        have hsplit : wfV v = true ∧ wfM (JsonMembers.cons k2 v2 t2) = true := by
          rw [wfM, Bool.and_eq_true] at hwfM0
          exact hwfM0
        have hrest2 : ∀ c : Char,
            (((if pretty then [',', '\n'] ++ (ind ++ jGap) else [',']) ++
              (renderM pretty ind k2 v2 t2 ++ rest)).head? = some c) →
            isDigitCh c = false := by
          cases pretty <;> (intro c hc; simp at hc; subst hc; decide)
        have hv := ihV pretty (ind ++ jGap) v (if pretty then [' '] else [])
          ((if pretty then [',', '\n'] ++ (ind ++ jGap) else [',']) ++
            (renderM pretty ind k2 v2 t2 ++ rest)) hfv
          (by cases pretty <;> decide) hind2 hrest2 hsplit.1
        have hsk : skipWs ((if pretty then [',', '\n'] ++ (ind ++ jGap) else [',']) ++
            (renderM pretty ind k2 v2 t2 ++ rest)) =
            ',' :: ((if pretty then '\n' :: (ind ++ jGap) else []) ++
              (renderM pretty ind k2 v2 t2 ++ rest)) := by
          cases pretty
          · rw [if_neg (by simp), if_neg (by simp), List.nil_append]
            exact skipWs_cons_not (by decide)
          · rw [if_pos rfl, if_pos rfl]
            rw [show ([',', '\n'] ++ (ind ++ jGap)) ++ (renderM true ind k2 v2 t2 ++ rest) =
              ',' :: (('\n' :: (ind ++ jGap)) ++ (renderM true ind k2 v2 t2 ++ rest)) from by
              simp]
            exact skipWs_cons_not (by decide)
        have hsk2 : skipWs ((if pretty then '\n' :: (ind ++ jGap) else []) ++
            (renderM pretty ind k2 v2 t2 ++ rest)) = renderM pretty ind k2 v2 t2 ++ rest := by
          cases pretty
          · rw [if_neg (by simp), List.nil_append]
            exact skipWs_renderM false ind k2 v2 t2 rest
          · rw [if_pos rfl, List.cons_append, skipWs_cons_ws (by decide), skipWs_append hind2]
            exact skipWs_renderM true ind k2 v2 t2 rest
        have hrec := ihM pretty ind k2 v2 t2 rest hfm2 hind hsplit.2
        have hq := parse_quote_body ky.data
          (':' :: ((if pretty then [' '] else []) ++ (renderV pretty (ind ++ jGap) v ++
            ((if pretty then [',', '\n'] ++ (ind ++ jGap) else [',']) ++
              (renderM pretty ind k2 v2 t2 ++ rest)))))
        have hskq : skipWs (':' :: ((if pretty then [' '] else []) ++
            (renderV pretty (ind ++ jGap) v ++
              ((if pretty then [',', '\n'] ++ (ind ++ jGap) else [',']) ++
                (renderM pretty ind k2 v2 t2 ++ rest))))) =
            ':' :: ((if pretty then [' '] else []) ++ (renderV pretty (ind ++ jGap) v ++
              ((if pretty then [',', '\n'] ++ (ind ++ jGap) else [',']) ++
                (renderM pretty ind k2 v2 t2 ++ rest)))) :=
          skipWs_cons_not (by decide)
        have hq3 : parseStrBody ((ky.data.map escChar).flatten ++ '"' :: ':' ::
            ((if pretty = true then [' '] else []) ++ (renderV pretty (ind ++ jGap) v ++
              ((if pretty = true then ',' :: '\n' :: (ind ++ jGap) else [',']) ++
                (renderM pretty ind k2 v2 t2 ++ rest))))) =
            some (ky.data, ':' :: ((if pretty = true then [' '] else []) ++
              (renderV pretty (ind ++ jGap) v ++
                ((if pretty = true then ',' :: '\n' :: (ind ++ jGap) else [',']) ++
                  (renderM pretty ind k2 v2 t2 ++ rest))))) := hq
        have hskq3 : skipWs (':' :: ((if pretty = true then [' '] else []) ++
            (renderV pretty (ind ++ jGap) v ++
              ((if pretty = true then ',' :: '\n' :: (ind ++ jGap) else [',']) ++
                (renderM pretty ind k2 v2 t2 ++ rest))))) =
            ':' :: ((if pretty = true then [' '] else []) ++ (renderV pretty (ind ++ jGap) v ++
              ((if pretty = true then ',' :: '\n' :: (ind ++ jGap) else [',']) ++
                (renderM pretty ind k2 v2 t2 ++ rest)))) := hskq
        have hv3 : parseValue k ((if pretty = true then [' '] else []) ++
            (renderV pretty (ind ++ jGap) v ++
              ((if pretty = true then ',' :: '\n' :: (ind ++ jGap) else [',']) ++
                (renderM pretty ind k2 v2 t2 ++ rest)))) =
            some (v, (if pretty = true then ',' :: '\n' :: (ind ++ jGap) else [',']) ++
              (renderM pretty ind k2 v2 t2 ++ rest)) := hv
        have hskm3 : skipWs ((if pretty = true then ',' :: '\n' :: (ind ++ jGap) else [',']) ++
            (renderM pretty ind k2 v2 t2 ++ rest)) =
            ',' :: ((if pretty = true then '\n' :: (ind ++ jGap) else []) ++
              (renderM pretty ind k2 v2 t2 ++ rest)) := hsk
        simp only [parseMembers]
        rw [show renderM pretty ind ky v (.cons k2 v2 t2) ++ rest =
          '"' :: ((ky.data.map escChar).flatten ++ ('"' ::
            (':' :: ((if pretty then [' '] else []) ++ (renderV pretty (ind ++ jGap) v ++
              ((if pretty then [',', '\n'] ++ (ind ++ jGap) else [',']) ++
                (renderM pretty ind k2 v2 t2 ++ rest))))))) from by
          cases pretty <;> simp [renderM, quoteJ]]
        simp [hq3, hskq3, hv3, hskm3, hsk2, hrec, strMkData]

theorem jsonParse_stringify (v : JsonValue) (pretty : Bool) (hwf : wfV v = true) :
    jsonParse (jsonStringify v pretty) = some v := by
  have hlen : fuelV v ≤ (renderV pretty [] v).length :=
    (fuel_le_len (fuelV v)).1 pretty [] v (Nat.le_refl _)
  have hdig : ∀ c : Char, ([] : List Char).head? = some c → isDigitCh c = false := by
    intro c hc
    simp at hc
  have hp := (parse_render ((renderV pretty [] v).length + 1)).1 pretty [] v [] []
    (by omega) (by decide) (by decide) hdig hwf
  rw [List.nil_append, List.append_nil] at hp
  simp only [jsonParse, jsonStringify]
  rw [hp]
  simp [skipWs]

theorem mHasKey_style (ps : List (String × String)) (key : String) :
    mHasKey (msOfList (ps.map (fun p => (p.1, JsonValue.str p.2)))) key = psHas ps key := by
  induction ps with
  | nil => rfl
  | cons p t ih =>
    obtain ⟨k, v⟩ := p
    by_cases hk : k = key
    · simp [msOfList, mHasKey, psHas, psFind, hk]
    · simp [msOfList, mHasKey, psHas, psFind, hk, ih]

theorem wf_styleToJson (ps : List (String × String)) (h : psKeysNodup ps = true) :
    mKeysNodup (msOfList (ps.map (fun p => (p.1, JsonValue.str p.2)))) = true ∧
    wfM (msOfList (ps.map (fun p => (p.1, JsonValue.str p.2)))) = true := by
  induction ps with
  | nil => exact ⟨rfl, rfl⟩
  | cons p t ih =>
    obtain ⟨k, v⟩ := p
    have h1 : psHas t k = false ∧ psKeysNodup t = true := by
      simpa [psKeysNodup] using h
    obtain ⟨hnd, hwfm⟩ := ih h1.2
    refine ⟨?_, ?_⟩
    · simp [msOfList, mKeysNodup, mHasKey_style, h1.1, hnd]
    · simp [msOfList, wfM, wfV, hwfm]

theorem wfV_styleToJson (ps : List (String × String)) (h : psKeysNodup ps = true) :
    wfV (styleToJson ps) = true := by
  obtain ⟨h1, h2⟩ := wf_styleToJson ps h
  simp [styleToJson, wfV, h1, h2]

theorem wfV_assetToJson (a : BundleAsset) : wfV (assetToJson a) = true := by
  simp +decide [assetToJson, wfV, mKeysNodup, mHasKey, wfM]

theorem wfE_assets (l : List BundleAsset) : wfE (esOfList (l.map assetToJson)) = true := by
  induction l with
  | nil => rfl
  | cons a t ih => simp [esOfList, wfE, ih, wfV_assetToJson a]

theorem wfV_bundleToJson (b : ThemeBundle) : wfV (bundleToJson b) = true := by
  simp +decide [bundleToJson, wfV, mKeysNodup, mHasKey, wfM, wfE_assets]

theorem mHasKey_rules (r : List (String × List (String × String))) (key : String) :
    mHasKey (msOfList (r.map (fun p => (p.1, styleToJson p.2)))) key =
      r.any (fun p => p.1 = key) := by
  induction r with
  | nil => rfl
  | cons p t ih =>
    obtain ⟨k, v⟩ := p
    by_cases hk : k = key <;> simp [msOfList, mHasKey, List.any_cons, hk, ih]

theorem wf_rulesToJson (r : List (String × List (String × String)))
    (h : rulesNodup r = true) :
    mKeysNodup (msOfList (r.map (fun p => (p.1, styleToJson p.2)))) = true ∧
    wfM (msOfList (r.map (fun p => (p.1, styleToJson p.2)))) = true := by
  induction r with
  | nil => exact ⟨rfl, rfl⟩
  | cons p t ih =>
    obtain ⟨k, v⟩ := p
    rw [rulesNodup, Bool.and_eq_true, Bool.and_eq_true, Bool.not_eq_true'] at h
    obtain ⟨⟨ha, hb⟩, hc⟩ := h
    obtain ⟨hnd, hwfm⟩ := ih hc
    refine ⟨?_, ?_⟩
    · simp [msOfList, mKeysNodup, mHasKey_rules, ha, hnd]
    · simp [msOfList, wfM, hwfm, wfV_styleToJson v hb]

theorem wfV_obj (ms : JsonMembers) : wfV (.obj ms) = (mKeysNodup ms && wfM ms) := by
  simp [wfV]

theorem wfV_str (s : String) : wfV (.str s) = true := by
  simp [wfV]

theorem wfM_cons (k : String) (v : JsonValue) (t : JsonMembers) :
    wfM (.cons k v t) = (wfV v && wfM t) := by
  simp [wfM]

theorem wfM_nil : wfM .nil = true := by
  simp [wfM]

theorem wfV_themeToJsonValue (t : ThemeToken) (h : themeWF t = true) :
    wfV (themeToJsonValue t) = true := by
  rw [themeWF, Bool.and_eq_true, Bool.and_eq_true] at h
  obtain ⟨⟨hl, hd⟩, hc⟩ := h
  have hLs := wfV_styleToJson t.styles.light hl
  have hDs := wfV_styleToJson t.styles.dark hd
  cases hcs : t.css with
  | none =>
    cases hau : t.author <;> cases hbu : t.bundle <;>
      simp +decide [themeToJsonValue, hcs, hau, hbu, msOfList, wfV_obj, wfV_str, wfM_cons,
        wfM_nil, mKeysNodup, mHasKey, hLs, hDs, wfV_bundleToJson]
  | some c =>
    rw [hcs] at hc
    simp only [] at hc
    have hCs : wfV (cssToJson c) = true := by
      obtain ⟨lbo⟩ := c
      cases lbo with
      | none => simp [cssToJson, wfV, mKeysNodup, wfM]
      | some lb =>
        simp at hc
        obtain ⟨h1, h2⟩ := wf_rulesToJson lb hc
        simp [cssToJson, wfV, mKeysNodup, mHasKey, wfM, rulesToJson, h1, h2]
    cases hau : t.author <;> cases hbu : t.bundle <;>
      simp +decide [themeToJsonValue, hcs, hau, hbu, msOfList, wfV_obj, wfV_str, wfM_cons,
        wfM_nil, mKeysNodup, mHasKey, hLs, hDs, wfV_bundleToJson, hCs]

/-- C1: for every realizable document that validateThemeToken maps back to
itself, serializing with toJson (pretty or compact) and parsing the text back
yields a JSON value that validateThemeToken accepts as exactly that document:
the round-trip law. -/
theorem toJson_roundtrip (d : ThemeToken) (pretty : Bool) (hwf : themeWF d = true)
    (hval : validateThemeToken (themeToJsonValue d) = ValidationResult.valid d) :
    ∃ j, jsonParse (toJson d pretty) = some j ∧
      validateThemeToken j = ValidationResult.valid d := by
  refine ⟨themeToJsonValue d, ?_, hval⟩
  rw [toJson]
  exact jsonParse_stringify (themeToJsonValue d) pretty (wfV_themeToJsonValue d hwf)

theorem toJson_roundtrip_witness :
    (themeWF sampleDoc = true ∧
     validateThemeToken (themeToJsonValue sampleDoc) = ValidationResult.valid sampleDoc) ∧
    ∃ j, jsonParse (toJson sampleDoc true) = some j ∧
      validateThemeToken j = ValidationResult.valid sampleDoc :=
  ⟨⟨by decide, by decide⟩, toJson_roundtrip sampleDoc true (by decide) (by decide)⟩

theorem psHas_append_left (a b : List (String × String)) (k : String)
    (h : psHas a k = true) : psHas (a ++ b) k = true := by
  rw [psHas] at h ⊢
  rw [psFind_append]
  cases hf : psFind a k with
  | none => rw [hf] at h; cases h
  | some v => simp

theorem collectCore_has (ks : List String) (ms : JsonMembers) (l : List (String × String))
    (h : collectCore ks ms = some l) : ∀ k ∈ ks, psHas l k = true := by
  induction ks generalizing l with
  | nil =>
    intro k hk
    cases hk
  | cons key t ih =>
    simp only [collectCore] at h
    cases hfind : jFind ms key with
    | none =>
      rw [hfind] at h
      cases h
    | some v =>
      rw [hfind] at h
      cases v with
      | str s =>
        cases hrec : collectCore t ms with
        | none => rw [hrec] at h; simp at h
        | some l2 =>
          rw [hrec] at h
          simp only [Option.map_some', Option.some_inj] at h
          intro k hk
          rcases List.mem_cons.mp hk with hk1 | hk2
          · rw [← h, ← hk1]
            simp [psHas, psFind]
          · by_cases he : key = k
            · rw [← h]
              simp [psHas, psFind, he]
            · rw [← h]
              simpa [psHas, psFind, he] using ih l2 hrec k hk2
      | null => simp at h
      | bool b => simp at h
      | num n => simp at h
      | arr es => simp at h
      | obj ms2 => simp at h

theorem psHas_styleProps (v : JsonValue) (l : List (String × String))
    (h : validateStyleProps v = some l) : ∀ k ∈ coreKeys, psHas l k = true := by
  cases v with
  | obj ms =>
    simp only [validateStyleProps, Option.bind_eq_some, Option.map_eq_some'] at h
    obtain ⟨core, hcore, ex, hex, hl⟩ := h
    intro k hk
    rw [← hl]
    exact psHas_append_left core ex k (collectCore_has coreKeys ms core hcore k hk)
  | null => exact Option.noConfusion h
  | bool b => exact Option.noConfusion h
  | num n => exact Option.noConfusion h
  | str s => exact Option.noConfusion h
  | arr es => exact Option.noConfusion h

theorem stylesOf_core (o : Option JsonValue) (st : ThemeStyles) (h : stylesOf o = some st) :
    ∀ k ∈ coreKeys, psHas st.light k = true ∧ psHas st.dark k = true := by
  cases o with
  | none => exact Option.noConfusion h
  | some v =>
    cases v with
    | obj sms =>
      simp only [stylesOf] at h
      cases hlv : jFind sms "light" with
      | none => rw [hlv] at h; exact Option.noConfusion h
      | some lv =>
        rw [hlv] at h
        simp only [Option.bind_eq_some] at h
        obtain ⟨l, hl, h2⟩ := h
        cases hdv : jFind sms "dark" with
        | none => rw [hdv] at h2; exact Option.noConfusion h2
        | some dv =>
          rw [hdv] at h2
          simp only [Option.map_eq_some'] at h2
          obtain ⟨dk, hdk, hst⟩ := h2
          intro k hk
          rw [← hst]
          exact ⟨psHas_styleProps lv l hl k hk, psHas_styleProps dv dk hdk k hk⟩
    | null => exact Option.noConfusion h
    | bool b => exact Option.noConfusion h
    | num n => exact Option.noConfusion h
    | str s => exact Option.noConfusion h
    | arr es => exact Option.noConfusion h

/-- C6: one direction of the claim holds: validateThemeToken succeeds only on
inputs whose light and dark style sets both contain every one of the twenty
required property names with string values.  The non-empty part of the claim
is refuted separately: the schema constrains the values to strings with no
minimum length, so a required property bound to the empty string is accepted. -/
theorem validate_corePresent (j : JsonValue) (d : ThemeToken)
    (h : validateThemeToken j = ValidationResult.valid d) :
    ∀ k ∈ coreKeys, psHas d.styles.light k = true ∧ psHas d.styles.dark k = true := by
  have hopt : validateThemeTokenOpt j = some d := by
    rw [validateThemeToken] at h
    cases hv : validateThemeTokenOpt j with
    | none =>
      rw [hv] at h
      exact absurd h (by simp)
    | some t0 =>
      rw [hv] at h
      have ht : t0 = d := by simpa using h
      rw [ht]
  cases j with
  | obj ms =>
    simp only [validateThemeTokenOpt, Option.bind_eq_some, Option.map_eq_some'] at hopt
    obtain ⟨sch, hsch, nm, hnm, au, hau, bu, hbu, st, hst, cs, hcs, hd⟩ := hopt
    intro k hk
    rw [← hd]
    exact stylesOf_core (jFind ms "styles") st hst k hk
  | null => exact Option.noConfusion hopt
  | bool b => exact Option.noConfusion hopt
  | num n => exact Option.noConfusion hopt
  | str s => exact Option.noConfusion hopt
  | arr es => exact Option.noConfusion hopt

theorem validate_corePresent_witness :
    validateThemeToken (themeToJsonValue sampleDoc) = ValidationResult.valid sampleDoc ∧
    psHas sampleDoc.styles.light "background" = true ∧
    psHas sampleDoc.styles.dark "background" = true :=
  ⟨by decide,
   (validate_corePresent (themeToJsonValue sampleDoc) sampleDoc (by decide) "background"
     (by decide)).1,
   (validate_corePresent (themeToJsonValue sampleDoc) sampleDoc (by decide) "background"
     (by decide)).2⟩

theorem validate_emptyAccepted_cex :
    validateThemeToken (themeToJsonValue emptyBgDoc) = ValidationResult.valid emptyBgDoc ∧
    psFind emptyBgDoc.styles.light "background" = some "" := by
  decide
